import Mathlib

/-!
# Verification of the dead-code checker's graph engine

A shallow embedding, in Lean 4, of the core of
`scripts/checks/deadcode/checker.py`: the dependency graph, the
transitive-dead fixed-point pass, re-export chain construction, the
direct-dead marking pass, dead-file and dead-folder aggregation, the
ignore-pattern matcher, and the line-by-line export extractor.

Python dictionaries and sets are rendered as association lists and
duplicate-free lists (insertion order preserved, as in CPython).
Filesystem-dependent helpers (`_resolve_import_path`, the file globbers,
file reads) are threaded as explicit parameters, since the functions under
verification only consume their results.
-/

namespace DeadCode

/-- A graph node identity.  The Python code builds symbol keys as the string
`f"{file_path}:{name}"`.  Every name the extractors produce matches `\w+` or
is one of the sentinels `__file__` / `default`, so names never contain a
colon and the pair `(file, name)` renders the key faithfully: the test
`key.endswith(':__file__')` becomes `name == "__file__"`, the owner
extraction `key[:-9]` becomes `file`, and the prefix test
`key.startswith(file_path + ':')` becomes `file == file_path` (file paths
in this project contain no colon). -/
structure SymKey where
  file : String
  name : String
deriving DecidableEq, Repr, Inhabited

/-- `key.endswith(':__file__')` under the colon-free-name encoding. -/
def SymKey.isFileKey (k : SymKey) : Bool := k.name == "__file__"

/-- Python `set.add` on a set rendered as a duplicate-free list. -/
def addElem (s : List SymKey) (v : SymKey) : List SymKey :=
  if s.contains v then s else s ++ [v]

/-- Python `set.add` for sets of strings. -/
def addStr (s : List String) (v : String) : List String :=
  if s.contains v then s else s ++ [v]

/-! ### String utilities

`String.startsWith`, `String.endsWith`, `String.splitOn`, `String.trim`
and `String.replace` are implemented in core through `Substring` byte
positions, which the kernel cannot reduce; the list-based equivalents
below compute by kernel reduction (the concrete-input theorems in this
file rely on that) while preserving the Python semantics of the mirrored
methods. -/

/-- Characters stripped by Python `str.strip()` and matched by `\s`. -/
def isPySpace (c : Char) : Bool :=
  c = ' ' || c = '\t' || c = '\n' || c = '\r' || c = '\x0b' || c = '\x0c'

/-- Python `str.strip()`. -/
def pyStrip (s : String) : String :=
  ⟨((s.toList.dropWhile isPySpace).reverse.dropWhile isPySpace).reverse⟩

/-- Match a literal character sequence, returning the rest. -/
def matchLit : List Char → List Char → Option (List Char)
  | [], cs => some cs
  | l :: ls, c :: cs => if c = l then matchLit ls cs else none
  | _ :: _, [] => none

def matchLitStr (lit : String) (cs : List Char) : Option (List Char) :=
  matchLit lit.toList cs

/-- Python `s.startswith(pre)`. -/
def strStartsWith (s pre : String) : Bool := (matchLitStr pre s.toList).isSome

/-- Python `s.endswith(suf)`. -/
def strEndsWith (s suf : String) : Bool :=
  (matchLit suf.toList.reverse s.toList.reverse).isSome

/-- Worker for `strSplitOn`: scan left to right, breaking at each
non-overlapping occurrence of `sep`.  Each step consumes at least one
character, so fuel equal to the string length never runs out (the fuel-0
case is unreachable). -/
def splitOnAux (sep : List Char) : Nat → List Char → List Char →
    List (List Char)
  | _, [], acc => [acc.reverse]
  | 0, s, acc => [acc.reverse ++ s]
  | fuel + 1, c :: cs, acc =>
    match matchLit sep (c :: cs) with
    | some rest => acc.reverse :: splitOnAux sep fuel rest []
    | none => splitOnAux sep fuel cs (c :: acc)

/-- Python `s.split(sep)` for nonempty `sep` (which is also
`String.splitOn`'s behaviour; an empty separator returns `[s]`). -/
def strSplitOn (s sep : String) : List String :=
  if sep.toList.isEmpty then [s]
  else (splitOnAux sep.toList s.toList.length s.toList []).map
    (fun l => (⟨l⟩ : String))

/-- Python `sub in s` (substring test) for nonempty `sub`. -/
def strContains (s sub : String) : Bool := (strSplitOn s sub).length > 1

/-- Worker for `strReplace`, with the same fuel discipline as
`splitOnAux`. -/
def replaceAux (pat rep : List Char) : Nat → List Char → List Char
  | _, [] => []
  | 0, s => s
  | fuel + 1, c :: cs =>
    match matchLit pat (c :: cs) with
    | some rest => rep ++ replaceAux pat rep fuel rest
    | none => c :: replaceAux pat rep fuel cs

/-- Python `s.replace(pat, rep)` (left-to-right, non-overlapping); an
empty pattern leaves the string unchanged, as in `String.replace`. -/
def strReplace (s pat rep : String) : String :=
  if pat.toList.isEmpty then s
  else ⟨replaceAux pat.toList rep.toList s.toList.length s.toList⟩

/-- `m[k]` on a `defaultdict(set)` rendered as an association list of
duplicate-free lists; missing keys default to the empty set
(`m.get(k, set())`). -/
def getSet (m : List (SymKey × List SymKey)) (k : SymKey) : List SymKey :=
  match m.find? (fun p => p.1 == k) with
  | some p => p.2
  | none => []

/-- `m[k].add(v)` on a `defaultdict(set)`: update the first bucket for `k`
in place, or append a fresh singleton bucket. -/
def addToBucket (m : List (SymKey × List SymKey)) (k v : SymKey) :
    List (SymKey × List SymKey) :=
  match m with
  | [] => [(k, [v])]
  | (k', vs) :: rest =>
    if k' == k then (k', addElem vs v) :: rest
    else (k', vs) :: addToBucket rest k v

/-- The `DependencyGraph` class state (checker.py lines 27-42). -/
structure DependencyGraph where
  dependencies : List (SymKey × List SymKey) := []
  dependents : List (SymKey × List SymKey) := []
  allSymbols : List SymKey := []
  exportedSymbols : List SymKey := []
  deadSymbols : List SymKey := []
  transitivelyDead : List SymKey := []
deriving DecidableEq, Repr, Inhabited

/-- `DependencyGraph.add_dependency` (checker.py lines 44-49). -/
def DependencyGraph.addDependency (g : DependencyGraph)
    (fromSymbol toSymbol : SymKey) : DependencyGraph :=
  { g with
    dependencies := addToBucket g.dependencies fromSymbol toSymbol
    dependents := addToBucket g.dependents toSymbol fromSymbol
    allSymbols := addElem (addElem g.allSymbols fromSymbol) toSymbol }

/-- `DependencyGraph.mark_as_export` (checker.py lines 51-54). -/
def DependencyGraph.markAsExport (g : DependencyGraph) (s : SymKey) :
    DependencyGraph :=
  { g with
    exportedSymbols := addElem g.exportedSymbols s
    allSymbols := addElem g.allSymbols s }

/-- `DependencyGraph.mark_as_dead` (checker.py lines 56-58). -/
def DependencyGraph.markAsDead (g : DependencyGraph) (s : SymKey) :
    DependencyGraph :=
  { g with deadSymbols := addElem g.deadSymbols s }

/-- The inner live-export scan of `find_transitive_dead_code`
(checker.py lines 91-96): does any export of `filePath` avoid both dead
sets, read against the current (mid-pass) state? -/
def DependencyGraph.hasLiveExports (g : DependencyGraph) (filePath : String) :
    Bool :=
  g.exportedSymbols.any (fun e =>
    e.file == filePath && !(g.deadSymbols.contains e) &&
      !(g.transitivelyDead.contains e))

/-- The per-dependent test inside the pass (checker.py lines 84-102):
`true` exactly when this dependent forces `all_dependents_dead = False`. -/
def DependencyGraph.dependentBlocks (g : DependencyGraph) (d : SymKey) : Bool :=
  if g.deadSymbols.contains d || g.transitivelyDead.contains d then false
  else if d.isFileKey then g.hasLiveExports d.file
  else true

/-- One iteration of the `for symbol in list(self.all_symbols)` loop
(checker.py lines 71-107), threading the graph state and the `changed`
flag. -/
def DependencyGraph.examineSymbol (acc : DependencyGraph × Bool)
    (s : SymKey) : DependencyGraph × Bool :=
  if acc.1.deadSymbols.contains s || acc.1.transitivelyDead.contains s then acc
  else if (getSet acc.1.dependents s).isEmpty then acc
  else if (getSet acc.1.dependents s).any acc.1.dependentBlocks then acc
  else ({ acc.1 with transitivelyDead := addElem acc.1.transitivelyDead s },
    true)

/-- One full pass over all symbols, starting with `changed = False`
(checker.py lines 67-107). -/
def DependencyGraph.runPass (g : DependencyGraph) : DependencyGraph × Bool :=
  g.allSymbols.foldl DependencyGraph.examineSymbol (g, false)

/-- The `while changed and passes < 10` loop (checker.py lines 63-66),
expressed with the remaining pass budget as fuel. -/
def findTransitiveDeadAux : Nat → DependencyGraph → DependencyGraph
  | 0, g => g
  | n + 1, g =>
    let p := g.runPass
    if p.2 then findTransitiveDeadAux n p.1 else p.1

/-- `DependencyGraph.find_transitive_dead_code` (checker.py lines 60-107). -/
def DependencyGraph.findTransitiveDeadCode (g : DependencyGraph) :
    DependencyGraph :=
  findTransitiveDeadAux 10 g

/-- `n` unconditional passes, for relating the fuelled loop to a pass
count. -/
def iterPass : Nat → DependencyGraph → DependencyGraph
  | 0, g => g
  | n + 1, g => iterPass n g.runPass.1

/-- The graph-building calls issued while the checker constructs its state:
`add_dependency` (from `_build_dependency_graph`), `mark_as_export`, and
`mark_as_dead` (from `_mark_dead_symbols` and
`_check_unused_local_symbols`). -/
inductive GraphOp where
  | addDep (fromSymbol toSymbol : SymKey)
  | markExport (s : SymKey)
  | markDead (s : SymKey)
deriving DecidableEq, Repr

def applyOp (g : DependencyGraph) : GraphOp → DependencyGraph
  | .addDep a b => g.addDependency a b
  | .markExport s => g.markAsExport s
  | .markDead s => g.markAsDead s

/-- The graph after an arbitrary sequence of building calls, starting from
`DependencyGraph.__init__`'s empty state. -/
def buildGraph (ops : List GraphOp) : DependencyGraph :=
  ops.foldl applyOp {}

/-! ## The per-file fact records and the analysis cache

The record types mirror the shared parser's `Export`/`Import`/`Symbol` and
the checker's `FileAnalysis`, with exactly the fields the checker reads
(`from_path`, `original_name` and `interface_implementations` are
constructed and consumed throughout `checker.py`, even though the stale
`models.py` copies omit some of them). -/

structure Export where
  name : String
  filePath : String
  lineNumber : Nat
  exportType : String
  isReexport : Bool := false
  fromPath : Option String := none
  originalName : Option String := none
deriving DecidableEq, Repr, Inhabited

structure Import where
  name : String
  fromPath : String
  filePath : String
  lineNumber : Nat
  importType : String
  originalName : Option String := none
deriving DecidableEq, Repr, Inhabited

structure Symbol where
  name : String
  filePath : String
  lineNumber : Nat
  symbolType : String
  isExported : Bool := false
deriving DecidableEq, Repr, Inhabited

structure FileAnalysis where
  path : String
  exports : List Export := []
  imports : List Import := []
  symbols : List Symbol := []
  usedSymbols : List String := []
  interfaceImplementations : List String := []
  content : String := ""
  lines : Nat := 0
deriving DecidableEq, Repr, Inhabited

/-- The checker's `file_cache`: an insertion-ordered map from file path to
per-file analysis. -/
abbrev FileCache := List (String × FileAnalysis)

def lookupCache (cache : FileCache) (p : String) : Option FileAnalysis :=
  match cache.find? (fun q => q.1 == p) with
  | some q => some q.2
  | none => none

/-- The filesystem-backed `_resolve_import_path(from_path, from_file)`
(checker.py lines 700-737), threaded as a parameter: the functions under
verification only consume its result (`None` for external specifiers). -/
abbrev Resolver := String → String → Option String

/-- Python `x if x else d` for an optional string (`None` and `""` are
falsy). -/
def strOr (o : Option String) (d : String) : String :=
  match o with
  | some s => if s.isEmpty then d else s
  | none => d

/-- Python truthiness of an optional string. -/
def optTruthy (o : Option String) : Bool :=
  match o with
  | some s => !s.isEmpty
  | none => false

/-- `Path(p).name`: the last path segment. -/
def fileName (p : String) : String := (strSplitOn p "/").getLastD p

/-- `DeadCodeChecker._is_barrel_file` (checker.py lines 182-184). -/
def isBarrelFile (p : String) : Bool :=
  ["index.ts", "index.tsx", "index.js", "index.jsx"].contains (fileName p)

/-! ## Re-export chains and the direct-dead marking pass -/

/-- One iteration over the source file's exports in the wildcard branch of
`_build_reexport_chains` (checker.py lines 807-822).  `eFilePath` is the
re-exporting file, `sourcePath` the resolved wildcard source. -/
def chainsWildcardStep (resolve : Resolver) (cache : FileCache)
    (eFilePath sourcePath : String) (acc : List (SymKey × List SymKey))
    (se : Export) : List (SymKey × List SymKey) :=
  if se.isReexport then
    if optTruthy se.fromPath then
      match resolve (se.fromPath.getD "") sourcePath with
      | none => acc
      | some originalSourcePath =>
        if (lookupCache cache originalSourcePath).isSome then
          addToBucket acc ⟨originalSourcePath, se.name⟩ ⟨eFilePath, se.name⟩
        else acc
    else acc
  else addToBucket acc ⟨sourcePath, se.name⟩ ⟨eFilePath, se.name⟩

/-- One iteration over a file's exports in `_build_reexport_chains`
(checker.py lines 797-829). -/
def chainsExportStep (resolve : Resolver) (cache : FileCache)
    (acc : List (SymKey × List SymKey)) (e : Export) :
    List (SymKey × List SymKey) :=
  if e.isReexport && optTruthy e.fromPath then
    match resolve (e.fromPath.getD "") e.filePath with
    | none => acc
    | some sourcePath =>
      if (lookupCache cache sourcePath).isSome then
        if e.exportType == "wildcard" then
          ((lookupCache cache sourcePath).getD default).exports.foldl
            (chainsWildcardStep resolve cache e.filePath sourcePath) acc
        else
          addToBucket acc ⟨sourcePath, strOr e.originalName e.name⟩
            ⟨e.filePath, e.name⟩
      else acc
  else acc

/-- `DeadCodeChecker._build_reexport_chains` (checker.py lines 787-831):
map each original symbol key to the set of re-export alias keys.  Named
re-exports record the immediate resolved source; the wildcard branch
additionally follows one level of re-export at the source file. -/
def buildReexportChains (resolve : Resolver) (cache : FileCache) :
    List (SymKey × List SymKey) :=
  cache.foldl (fun acc pfa =>
    pfa.2.exports.foldl (chainsExportStep resolve cache) acc) []

/-- The first-matching re-export scan with `break` inside the
`imported_symbols` loop (checker.py lines 876-886). -/
def findReexportSource (resolve : Resolver) (resolvedPath : String)
    (exportName : String) : List Export → Option SymKey
  | [] => none
  | e :: rest =>
    if e.name == exportName && e.isReexport && optTruthy e.fromPath then
      match resolve (e.fromPath.getD "") resolvedPath with
      | some sourcePath => some ⟨sourcePath, strOr e.originalName e.name⟩
      | none => none
    else findReexportSource resolve resolvedPath exportName rest

/-- One iteration over the resolved file's exports for a namespace import
(checker.py lines 853-867). -/
def importNamespaceStep (resolve : Resolver) (resolvedPath : String)
    (acc : List SymKey) (e : Export) : List SymKey :=
  if e.isReexport && optTruthy e.fromPath then
    match resolve (e.fromPath.getD "") resolvedPath with
    | none => acc
    | some sourcePath => addElem acc ⟨sourcePath, strOr e.originalName e.name⟩
  else addElem acc ⟨resolvedPath, e.name⟩

/-- The original-source lookup for a named import of a re-export
(checker.py lines 875-886), applied to the accumulator after the direct
key was added. -/
def importReexportTail (resolve : Resolver) (cache : FileCache)
    (resolvedPath : String) (imp : Import) (acc1 : List SymKey) :
    List SymKey :=
  match lookupCache cache resolvedPath with
  | none => acc1
  | some ra =>
    match findReexportSource resolve resolvedPath
        (strOr imp.originalName imp.name) ra.exports with
    | some sourceKey => addElem acc1 sourceKey
    | none => acc1

/-- The default-import key (checker.py lines 888-891). -/
def importDefaultTail (resolvedPath : String) (imp : Import)
    (acc2 : List SymKey) : List SymKey :=
  if imp.importType == "default" then addElem acc2 ⟨resolvedPath, "default"⟩
  else acc2

/-- One iteration over a file's imports in the `imported_symbols` loop of
`_mark_dead_symbols` (checker.py lines 847-892). -/
def importStep (resolve : Resolver) (cache : FileCache) (acc : List SymKey)
    (imp : Import) : List SymKey :=
  match resolve imp.fromPath imp.filePath with
  | none => acc
  | some resolvedPath =>
    if imp.importType == "namespace" then
      match lookupCache cache resolvedPath with
      | none => acc
      | some ra =>
        ra.exports.foldl (importNamespaceStep resolve resolvedPath) acc
    else
      importDefaultTail resolvedPath imp
        (importReexportTail resolve cache resolvedPath imp
          (addElem acc ⟨resolvedPath, strOr imp.originalName imp.name⟩))

/-- The `imported_symbols` accumulation of `_mark_dead_symbols`
(checker.py lines 845-892). -/
def importedSymbolsOf (resolve : Resolver) (cache : FileCache) :
    List SymKey :=
  cache.foldl (fun acc pfa =>
    pfa.2.imports.foldl (importStep resolve cache) acc) []

/-- The `all_exports` dictionary (checker.py lines 836-840): keyed by
`f"{export.file_path}:{export.name}"`, later insertions overwriting the
value in place. -/
def insertExport : List (SymKey × Export) → SymKey → Export →
    List (SymKey × Export)
  | [], k, e => [(k, e)]
  | (k', e') :: rest, k, e =>
    if k' == k then (k', e) :: rest
    else (k', e') :: insertExport rest k e

def allExportsOf (cache : FileCache) : List (SymKey × Export) :=
  cache.foldl (fun m pfa =>
    pfa.2.exports.foldl (fun m e => insertExport m ⟨e.filePath, e.name⟩ e) m)
    []

/-- The `is_used` computation for one `all_exports` entry
(checker.py lines 899-927): direct import, imported re-export alias,
implemented interface/type, or barrel-file leniency. -/
def exportIsUsed (cache : FileCache) (chains : List (SymKey × List SymKey))
    (imported : List SymKey) (k : SymKey) (e : Export) : Bool :=
  imported.contains k ||
  (getSet chains k).any (fun rk => imported.contains rk) ||
  ((e.exportType == "interface" || e.exportType == "type") &&
    cache.any (fun pfa => pfa.2.interfaceImplementations.contains e.name)) ||
  isBarrelFile e.filePath

/-- One iteration of the export-marking loop (checker.py lines 895-931). -/
def deadExportStep (cache : FileCache) (chains : List (SymKey × List SymKey))
    (imported : List SymKey) (acc : List SymKey) (ke : SymKey × Export) :
    List SymKey :=
  if ke.2.isReexport then acc
  else if exportIsUsed cache chains imported ke.1 ke.2 then acc
  else addElem acc ke.1

/-- One iteration of the unused-local-symbol tail
(checker.py lines 935-939). -/
def localTailStep (fa : FileAnalysis) (acc : List SymKey) (s : Symbol) :
    List SymKey :=
  if !(fa.usedSymbols.contains s.name) then
    if !(strStartsWith s.name "_") && s.symbolType != "interface" &&
        s.symbolType != "type" then
      addElem acc ⟨s.filePath, s.name⟩
    else acc
  else acc

/-- `DeadCodeChecker._mark_dead_symbols` (checker.py lines 833-939),
returning the set of keys passed to `mark_as_dead`: the unused
originally-declared exports (lines 894-931) followed by the
unused-local-symbol tail (lines 933-939). -/
def markDeadSymbols (resolve : Resolver) (cache : FileCache) : List SymKey :=
  cache.foldl (fun acc pfa =>
    pfa.2.symbols.foldl (localTailStep pfa.2) acc)
    ((allExportsOf cache).foldl
      (deadExportStep cache (buildReexportChains resolve cache)
        (importedSymbolsOf resolve cache)) [])

/-! ## Per-file analysis and error isolation -/

/-- The exception classes caught by `_analyze_file`'s `except` clause. -/
inductive ReadError where
  | osError
  | unicodeDecodeError
deriving DecidableEq, Repr

/-- The shared `TypeScriptParser` interface consumed by `_analyze_file`
(the parser itself lives outside this package). -/
structure SourceExtractor where
  extractExports : String → String → List Export
  extractImports : String → String → List Import
  extractSymbols : String → String → List Symbol
  findSymbolUsage : String → List String
  extractInterfaceImplementations : String → String → List String

/-- `DeadCodeChecker._analyze_file` (checker.py lines 672-698): the
`open`/`read` outcome is passed in as `readResult`; `UnicodeDecodeError`
and `OSError` take the `except` path, which returns
`FileAnalysis(path=file_path)` with every other field defaulted. -/
def analyzeFile (ext : SourceExtractor) (filePath : String)
    (readResult : Except ReadError String) : FileAnalysis :=
  match readResult with
  | .error _ => { path := filePath }
  | .ok content =>
    { path := filePath
      exports := ext.extractExports content filePath
      imports := ext.extractImports content filePath
      symbols := ext.extractSymbols content filePath
      usedSymbols := ext.findSymbolUsage content
      interfaceImplementations :=
        ext.extractInterfaceImplementations content filePath
      content := content
      lines := (strSplitOn content "\n").length }

/-- The analysis loop of `run_all_checks` (checker.py lines 1233-1243):
every listed file receives exactly one cache entry holding its
`_analyze_file` result (the thread pool affects completion order only; the
map write `self.file_cache[file_path] = analysis` happens once per file). -/
def runAnalyzeAll (ext : SourceExtractor)
    (files : List (String × Except ReadError String)) : FileCache :=
  files.map (fun pr => (pr.1, analyzeFile ext pr.1 pr.2))

/-! ## Ignore-pattern loading and matching -/

/-- `DeadCodeChecker._load_exceptions` (checker.py lines 145-153): the
ignore file's lines are passed in; stripped non-empty lines not starting
with `#` are collected into the exceptions set. -/
def loadExceptions (fileLines : List String) : List String :=
  fileLines.foldl (fun acc rawLine =>
    let line := pyStrip rawLine
    if !line.isEmpty && !(strStartsWith line "#") then addStr acc line
    else acc) []

/-- The regex dialect produced by `_matches_pattern`'s `str.replace`
translation: after `pattern.replace("**", ".*").replace("*", "[^/]*")`
(note the second replace also rewrites the `*` introduced by the first,
so `**` becomes `.[^/]*`), the regex consists of literal characters, `.`,
and the class-run `[^/]*`. -/
inductive RegexTok where
  | lit (c : Char)
  | anyChar
  | nonSepStar
deriving DecidableEq, Repr

def parseRegex : List Char → List RegexTok
  | '[' :: '^' :: '/' :: ']' :: '*' :: rest => .nonSepStar :: parseRegex rest
  | '.' :: rest => .anyChar :: parseRegex rest
  | c :: rest => .lit c :: parseRegex rest
  | [] => []

/-- The backtracking loop of a non-separator star: try the continuation
at every position reachable by consuming non-`/` characters. -/
def starLoop (k : List Char → Bool) : List Char → Bool
  | [] => k []
  | d :: rest => k (d :: rest) || (if d = '/' then false else starLoop k rest)

/-- The backtracking loop of `.*` (any characters). -/
def deepLoop (k : List Char → Bool) : List Char → Bool
  | [] => k []
  | c :: rest => k (c :: rest) || deepLoop k rest

/-- Match a token sequence against a prefix of `s` (Python regex `.` does
not match a newline, which cannot occur in a path string). -/
def matchToks : List RegexTok → List Char → Bool
  | [], _ => true
  | .lit c :: ts, s =>
    match s with
    | d :: rest => if d = c then matchToks ts rest else false
    | [] => false
  | .anyChar :: ts, s =>
    match s with
    | _ :: rest => matchToks ts rest
    | [] => false
  | .nonSepStar :: ts, s => starLoop (matchToks ts) s

def searchFrom (toks : List RegexTok) : List Char → Bool
  | [] => matchToks toks []
  | c :: rest => matchToks toks (c :: rest) || searchFrom toks rest

/-- Python `re.search(regex, s)` for the dialect above: try a match at
every start position. -/
def regexSearch (regex : String) (s : String) : Bool :=
  searchFrom (parseRegex regex.toList) s.toList

/-- `DeadCodeChecker._matches_pattern` (checker.py lines 163-173). -/
def matchesPattern (fileStr pattern : String) : Bool :=
  if strContains pattern "**" then
    regexSearch (strReplace (strReplace pattern "**" ".*") "*" "[^/]*") fileStr
  else if strContains pattern "*" then
    regexSearch (strReplace pattern "*" "[^/]*") fileStr
  else strContains fileStr pattern

/-- `DeadCodeChecker._is_exception` (checker.py lines 155-161). -/
def isException (exceptions : List String) (p : String) : Bool :=
  exceptions.any (fun pattern => matchesPattern p pattern)

/-- Modelled from the spec: glob tokens, `**` matching any path-segment
sequence (separators included) and `*` any run of non-separator
characters.  Used only to compare the implementation against the spec's
stated semantics. -/
inductive GlobTok where
  | lit (c : Char)
  | star
  | deepStar
deriving DecidableEq, Repr

def parseGlob : List Char → List GlobTok
  | '*' :: '*' :: rest => .deepStar :: parseGlob rest
  | '*' :: rest => .star :: parseGlob rest
  | c :: rest => .lit c :: parseGlob rest
  | [] => []

def globMatch : List GlobTok → List Char → Bool
  | [], [] => true
  | [], _ :: _ => false
  | .lit c :: ts, s =>
    match s with
    | d :: rest => if d = c then globMatch ts rest else false
    | [] => false
  | .star :: ts, s => starLoop (globMatch ts) s
  | .deepStar :: ts, s => deepLoop (globMatch ts) s

/-- Modelled from the spec: anchored whole-path glob matching under the
stated `**` / `*` semantics. -/
def specGlobMatches (path pattern : String) : Bool :=
  globMatch (parseGlob pattern.toList) path.toList

/-! ## Issues, results, and the dead-file / dead-folder aggregation -/

/-- `DeadCodeIssue` (models.py lines 69-99), with the enum values of
`DeadCodeType` and `Severity` rendered by their string values. -/
structure DeadCodeIssue where
  message : String
  issueType : String
  severity : String
  filePath : Option String := none
  lineNumber : Option Nat := none
  recommendation : Option String := none
  symbolName : Option String := none
deriving DecidableEq, Repr, Inhabited

/-- `DeadCodeIssue.create_error` (models.py lines 80-99). -/
def DeadCodeIssue.createError (message issueType : String)
    (filePath : String) (lineNumber : Nat)
    (recommendation symbolName : String) : DeadCodeIssue :=
  { message := message, issueType := issueType, severity := "error",
    filePath := some filePath, lineNumber := some lineNumber,
    recommendation := some recommendation, symbolName := some symbolName }

/-- The issue lists of `CheckResults` (models.py lines 135-153). -/
structure CheckResults where
  errors : List DeadCodeIssue := []
  warnings : List DeadCodeIssue := []
deriving DecidableEq, Repr, Inhabited

def CheckResults.addIssue (r : CheckResults) (i : DeadCodeIssue) :
    CheckResults :=
  if i.severity == "error" then { r with errors := r.errors ++ [i] }
  else { r with warnings := r.warnings ++ [i] }

def CheckResults.getAllIssues (r : CheckResults) : List DeadCodeIssue :=
  r.errors ++ r.warnings

/-- `DeadCodeChecker._is_test_file` (checker.py lines 175-180). -/
def isTestFile (p : String) : Bool :=
  [".test.", ".spec.", "__tests__/", ".stories."].any
    (fun pattern => strContains p pattern)

/-- `str(file_path.relative_to(base))` with the `ValueError` fallback to
`str(file_path)` (pathlib resolves by whole path segments). -/
def relativeTo (base p : String) : String :=
  if p == base then "."
  else if strStartsWith p (base ++ "/") then
    (⟨p.toList.drop (base.length + 1)⟩ : String)
  else p

/-- `Path(p).parent` for the relative POSIX paths this checker handles. -/
def parentDir (p : String) : String :=
  if (strSplitOn p "/").length ≤ 1 then "."
  else String.intercalate "/" (strSplitOn p "/").dropLast

/-- `Path(base) / rel` (an absolute `rel` replaces the base, as in
pathlib). -/
def joinPath (base rel : String) : String :=
  if strStartsWith rel "/" then rel else base ++ "/" ++ rel

/-- The all-exports-dead test of `_detect_dead_files`
(checker.py lines 1107-1113), keyed — as in the source — by the cache key
`p`, not by the export record's own path. -/
def fileAllExportsDead (deadS tdead : List SymKey) (p : String)
    (fa : FileAnalysis) : Bool :=
  fa.exports.all (fun e =>
    deadS.contains ⟨p, e.name⟩ || tdead.contains ⟨p, e.name⟩)

/-- `total_symbols` of a dead file (checker.py line 1119). -/
def deadFileTotalSymbols (fa : FileAnalysis) : Nat :=
  fa.exports.length + (fa.symbols.filter (fun s => !s.isExported)).length

/-- The issue reported for a dead file (checker.py lines 1126-1134). -/
def deadFileIssue (p : String) (fa : FileAnalysis) : DeadCodeIssue :=
  let totalSymbols := deadFileTotalSymbols fa
  DeadCodeIssue.createError
    s!"Dead file - all exports unused ({totalSymbols} total symbols)"
    "unused_export" (relativeTo "src" p) 1 "Remove unused file" "__file__"

/-- The eligibility-and-deadness test of one `_detect_dead_files`
iteration, as a single predicate (the conjunction of the conditions that
lead to a report in `detectDeadFilesStep`). -/
def deadFileFilter (targetPath : String) (exceptions : List String)
    (deadS tdead : List SymKey) (pfa : String × FileAnalysis) : Bool :=
  strStartsWith pfa.1 targetPath &&
    !(isTestFile pfa.1 || isException exceptions pfa.1) &&
    !(pfa.2.exports.isEmpty) && fileAllExportsDead deadS tdead pfa.1 pfa.2

/-- One iteration of `_detect_dead_files` over the cache
(checker.py lines 1094-1134). -/
def detectDeadFilesStep (targetPath : String) (exceptions : List String)
    (deadS tdead : List SymKey) (acc : CheckResults × List String)
    (pfa : String × FileAnalysis) : CheckResults × List String :=
  if !(strStartsWith pfa.1 targetPath) then acc
  else if isTestFile pfa.1 || isException exceptions pfa.1 then acc
  else if pfa.2.exports.isEmpty then acc
  else if fileAllExportsDead deadS tdead pfa.1 pfa.2 then
    (acc.1.addIssue (deadFileIssue pfa.1 pfa.2), acc.2 ++ [pfa.1])
  else acc

/-- `DeadCodeChecker._detect_dead_files` (checker.py lines 1090-1136),
returning the updated results and the `dead_files` list. -/
def detectDeadFiles (targetPath : String) (exceptions : List String)
    (deadS tdead : List SymKey) (cache : FileCache)
    (results : CheckResults) : CheckResults × List String :=
  cache.foldl (detectDeadFilesStep targetPath exceptions deadS tdead)
    (results, [])

/-- `m[k]` on a `defaultdict(list)` over string keys. -/
def getStrBucket (m : List (String × List String)) (k : String) :
    List String :=
  match m.find? (fun p => p.1 == k) with
  | some p => p.2
  | none => []

/-- `m[k].append(v)` on a `defaultdict(list)`. -/
def appendStrBucket (m : List (String × List String)) (k v : String) :
    List (String × List String) :=
  match m with
  | [] => [(k, [v])]
  | (k', vs) :: rest =>
    if k' == k then (k', vs ++ [v]) :: rest
    else (k', vs) :: appendStrBucket rest k v

/-- `dead_files_by_folder` (checker.py lines 1147-1150). -/
def groupDeadByFolder (cache : FileCache) (deadFiles : List String) :
    List (String × List String) :=
  deadFiles.foldl (fun m p =>
    if (lookupCache cache p).isSome then appendStrBucket m (parentDir p) p
    else m) []

/-- `all_files_by_folder` over `_find_target_files()`'s result
(checker.py lines 1152-1157); the target-file list comes from the
filesystem and is passed in. -/
def groupTargetByFolder (targetFiles : List String) :
    List (String × List String) :=
  targetFiles.foldl (fun m p =>
    if !(isTestFile p) then appendStrBucket m (parentDir p) p else m) []

/-- The folder-level issue (checker.py lines 1203-1215). -/
def deadFolderIssue (folder : String) (totalCount : Nat) : DeadCodeIssue :=
  DeadCodeIssue.createError
    s!"Dead folder - all {totalCount} files unused"
    "unused_export" (relativeTo "src" folder ++ "/") 1
    "Remove unused folder" "__folder__"

/-- The removal filter of `_detect_dead_folders`
(checker.py lines 1185-1194): a dead-file issue whose reconstructed path
sits directly inside `folder`. -/
def deadFileIssueInFolder (folder : String) (i : DeadCodeIssue) : Bool :=
  optTruthy i.filePath && i.symbolName == some "__file__" &&
    parentDir (joinPath "src" (i.filePath.getD "")) == folder

/-- `list.remove` applied to both issue lists for each collected issue
(checker.py lines 1196-1201). -/
def removeIssues (r : CheckResults) (toRemove : List DeadCodeIssue) :
    CheckResults :=
  toRemove.foldl (fun r i =>
    { errors := r.errors.erase i, warnings := r.warnings.erase i }) r

/-- One folder iteration of `_detect_dead_folders`
(checker.py lines 1162-1215).  `dead_ratio >= 1.0` is rendered as
`total_count <= dead_count`, exact for any realistic file count. -/
def detectDeadFoldersStep (targetByFolder : List (String × List String))
    (acc : CheckResults × List String) (entry : String × List String) :
    CheckResults × List String :=
  let folderAll := getStrBucket targetByFolder entry.1
  if folderAll.length < 2 then acc
  else if folderAll.length ≤ entry.2.length then
    let toRemove := acc.1.getAllIssues.filter (deadFileIssueInFolder entry.1)
    let cleaned := removeIssues acc.1 toRemove
    (cleaned.addIssue (deadFolderIssue entry.1 folderAll.length),
      acc.2 ++ [entry.1])
  else acc

/-- `DeadCodeChecker._detect_dead_folders` (checker.py lines 1138-1217),
returning the updated results and the reported dead folders. -/
def detectDeadFolders (cache : FileCache) (targetFiles : List String)
    (deadFiles : List String) (results : CheckResults) :
    CheckResults × List String :=
  (groupDeadByFolder cache deadFiles).foldl
    (detectDeadFoldersStep (groupTargetByFolder targetFiles)) (results, [])

/-- The report condition of one `_detect_dead_folders` iteration
(checker.py lines 1166-1174), as a single predicate: at least two
non-test target files in the folder, all of them accounted dead. -/
def deadFolderCond (targetByFolder : List (String × List String))
    (entry : String × List String) : Bool :=
  !(decide ((getStrBucket targetByFolder entry.1).length < 2)) &&
    decide ((getStrBucket targetByFolder entry.1).length ≤ entry.2.length)

/-- Well-formedness of a `defaultdict(list)` built by `appendStrBucket`
folds: keys are unique and every entry holds its own non-empty bucket. -/
def bucketWF (m : List (String × List String)) : Prop :=
  (m.map Prod.fst).Nodup ∧
    ∀ k vs, (k, vs) ∈ m → vs = getStrBucket m k ∧ vs ≠ []

/-! ## The line-by-line export extractor

The helpers below implement, character by character, exactly the anchored
regular expressions of `_extract_exports`'s line scan
(checker.py lines 273-374). -/

def isWordChar (c : Char) : Bool := c.isAlphanum || c = '_'

/-- Greedy `\s+`. -/
def matchSpaces1 (cs : List Char) : Option (List Char) :=
  match cs with
  | c :: rest =>
    if isPySpace c then some (rest.dropWhile isPySpace) else none
  | [] => none

/-- Greedy `(\w+)`. -/
def matchWord1 (cs : List Char) : Option (String × List Char) :=
  let w := cs.takeWhile isWordChar
  if w.isEmpty then none else some (⟨w⟩, cs.drop w.length)

/-- First-alternative-wins keyword alternation (the keywords are not
prefixes of one another). -/
def matchAltKw : List String → List Char → Option (String × List Char)
  | [], _ => none
  | kw :: kws, cs =>
    match matchLitStr kw cs with
    | some rest => some (kw, rest)
    | none => matchAltKw kws cs

/-- `re.match(r'export\s+(const|function|class|interface|type)\s+(\w+)',
line)`, returning the two capture groups. -/
def matchDirectExport (cs : List Char) : Option (String × String) :=
  (matchLitStr "export" cs).bind fun cs1 =>
  (matchSpaces1 cs1).bind fun cs2 =>
  (matchAltKw ["const", "function", "class", "interface", "type"]
      cs2).bind fun kwcs =>
  (matchSpaces1 kwcs.2).bind fun cs3 =>
  (matchWord1 cs3).map fun wcs => (kwcs.1, wcs.1)

/-- `re.match(r'export\s+default\b', line)`. -/
def matchExportDefaultHead (cs : List Char) : Bool :=
  match (matchLitStr "export" cs).bind matchSpaces1 with
  | none => false
  | some cs1 =>
    match matchLitStr "default" cs1 with
    | none => false
    | some rest =>
      match rest with
      | [] => true
      | c :: _ => !(isWordChar c)

/-- `re.search(r'export\s+default\s+(function\s+)?(\w+)', line)` tried at
one start position, with the optional group's backtracking. -/
def matchDefaultNameAt (cs : List Char) : Option String :=
  (matchLitStr "export" cs).bind fun cs1 =>
  (matchSpaces1 cs1).bind fun cs2 =>
  (matchLitStr "default" cs2).bind fun cs3 =>
  (matchSpaces1 cs3).bind fun cs4 =>
    match (matchLitStr "function" cs4).bind matchSpaces1 with
    | some cs5 =>
      match matchWord1 cs5 with
      | some wcs => some wcs.1
      | none => (matchWord1 cs4).map (fun wcs => wcs.1)
    | none => (matchWord1 cs4).map (fun wcs => wcs.1)

/-- `re.search` start-position scan for the default-name pattern. -/
def searchDefaultName : List Char → Option String
  | [] => none
  | c :: rest =>
    match matchDefaultNameAt (c :: rest) with
    | some w => some w
    | none => searchDefaultName rest

/-- The trailing `(?:\s*from\s*["\']([^"\']+)["\'])?$` of the single-line
export regexes: either the line ends here, or a from-clause runs exactly
to the end (either quote character may open or close). -/
def matchFromClauseEnd (cs : List Char) : Option (Option String) :=
  if cs.isEmpty then some none
  else
    (matchLitStr "from" (cs.dropWhile isPySpace)).bind fun cs1 =>
    match cs1.dropWhile isPySpace with
    | q :: cs2 =>
      if q = '"' || q = '\'' then
        let body := cs2.takeWhile (fun c => c ≠ '"' && c ≠ '\'')
        if body.isEmpty then none
        else
          match cs2.drop body.length with
          | q2 :: rest2 =>
            if (q2 = '"' || q2 = '\'') && rest2.isEmpty then
              some (some ⟨body⟩)
            else none
          | [] => none
      else none
    | [] => none

/-- `re.match(r'^export\s*\{\s*([^}]+)\s*\}(?:\s*from\s*["\']([^"\']+)
["\'])?$', line)`: the greedy `([^}]+)` capture runs to the first `}`.
(When everything between the braces is whitespace the regex still matches
with a whitespace capture; that capture yields no export names and every
later branch also produces none, so returning `none` here is
observationally identical.) -/
def matchSingleNamedExport (cs : List Char) :
    Option (String × Option String) :=
  (matchLitStr "export" cs).bind fun cs1 =>
  match cs1.dropWhile isPySpace with
  | c :: cs2 =>
    if c = '\x7b' then
      let afterBrace := cs2.dropWhile isPySpace
      let body := afterBrace.takeWhile (fun d => d ≠ '\x7d')
      if body.isEmpty then none
      else
        match afterBrace.drop body.length with
        | d :: rest =>
          if d = '\x7d' then
            (matchFromClauseEnd rest).map fun fp => (⟨body⟩, fp)
          else none
        | [] => none
    else none
  | [] => none

/-- `re.match(r'^export\s+type\s*\{\s*([^}]+)\s*\}(?:...)?$', line)`. -/
def matchSingleTypeExport (cs : List Char) :
    Option (String × Option String) :=
  (matchLitStr "export" cs).bind fun cs1 =>
  (matchSpaces1 cs1).bind fun cs2 =>
  (matchLitStr "type" cs2).bind fun cs3 =>
  match cs3.dropWhile isPySpace with
  | c :: cs4 =>
    if c = '\x7b' then
      let afterBrace := cs4.dropWhile isPySpace
      let body := afterBrace.takeWhile (fun d => d ≠ '\x7d')
      if body.isEmpty then none
      else
        match afterBrace.drop body.length with
        | d :: rest =>
          if d = '\x7d' then
            (matchFromClauseEnd rest).map fun fp => (⟨body⟩, fp)
          else none
        | [] => none
    else none
  | [] => none

/-- One entry of `exports_str.split(',')`
(checker.py lines 302-309): strip, skip empties, keep the alias after
`' as '`. -/
def parseExportName (raw : String) : Option String :=
  let n := pyStrip raw
  if n.isEmpty then none
  else if strContains n " as " then
    some (pyStrip ((strSplitOn n " as ").getLastD n))
  else some n

/-- Build the export records for a brace list (checker.py lines 296-318
and 352-373). -/
def namedExportsOf (filePath : String) (lineNumber : Nat)
    (exportType : String) (body : String) (fromPath : Option String) :
    List Export :=
  (strSplitOn body ",").filterMap (fun raw =>
    (parseExportName raw).map (fun n =>
      { name := n, filePath := filePath, lineNumber := lineNumber,
        exportType := exportType, isReexport := fromPath.isSome,
        fromPath := fromPath }))

/-- The line-by-line phase of `_extract_exports`
(checker.py lines 273-374): strip the line, skip blank and
comment-prefixed lines, apply the brace guard of lines 285-292, then try
the four per-line patterns in order.  The full `_extract_exports` returns
the multi-line-regex matches of lines 214-271 followed by these; both
multi-line patterns require a `{` character, so on brace-free content this
list is the whole result. -/
def scanExportLine (filePath : String) (lineNumber : Nat)
    (rawLine : String) : List Export :=
  let line := pyStrip rawLine
  if line.isEmpty || strStartsWith line "//" || strStartsWith line "/*" then []
  else if strContains line "export" &&
      (strContains line "\x7b" || strContains line "\x7d") &&
      !(matchDirectExport line.toList).isSome &&
      !(strStartsWith line "export" && strEndsWith line "\x7d") then []
  else
    match matchSingleNamedExport line.toList with
    | some bf => namedExportsOf filePath lineNumber "named" bf.1 bf.2
    | none =>
      if matchExportDefaultHead line.toList then
        [{ name := (searchDefaultName line.toList).getD "default",
           filePath := filePath, lineNumber := lineNumber,
           exportType := "default", fromPath := none }]
      else
        match matchDirectExport line.toList with
        | some kwname =>
          [{ name := kwname.2, filePath := filePath,
             lineNumber := lineNumber, exportType := kwname.1,
             fromPath := none }]
        | none =>
          match matchSingleTypeExport line.toList with
          | some bf => namedExportsOf filePath lineNumber "type" bf.1 bf.2
          | none => []

/-- The listwise line scan of `_extract_exports`
(`for i, line in enumerate(lines, 1)`). -/
def extractExportsLineScan (content : String) (filePath : String) :
    List Export :=
  ((strSplitOn content "\n").enum.map
    (fun il => scanExportLine filePath (il.1 + 1) il.2)).flatten


/-! ## Concrete inputs used by individual claim-level theorems -/

/-- Resolver for the three-file named re-export chain C → A → B. -/
def c3Resolve : Resolver := fun fp ff =>
  if fp == "./b" && ff == "src/a.ts" then some "src/b.ts"
  else if fp == "./a" && ff == "src/c.ts" then some "src/a.ts"
  else none

/-- `src/b.ts` declares `foo`; `src/a.ts` re-exports it from `./b`;
`src/c.ts` re-exports it from `./a`. -/
def c3Cache : FileCache :=
  [("src/b.ts",
    { path := "src/b.ts",
      exports := [{ name := "foo", filePath := "src/b.ts", lineNumber := 1, exportType := "function" }] }),
   ("src/a.ts",
    { path := "src/a.ts",
      exports := [{ name := "foo", filePath := "src/a.ts", lineNumber := 1, exportType := "named", isReexport := true, fromPath := some "./b" }] }),
   ("src/c.ts",
    { path := "src/c.ts",
      exports := [{ name := "foo", filePath := "src/c.ts", lineNumber := 1, exportType := "named", isReexport := true, fromPath := some "./a" }] })]

/-- Resolver for the two-file import example of claim C1. -/
def c1Resolve : Resolver := fun fp ff =>
  if fp == "./a" && ff == "src/c.ts" then some "src/a.ts" else none

/-- `src/a.ts` declares and exports a symbol named `string` (legal in
TypeScript: `export const string = ...`); `src/c.ts` imports it.  The
identifier-usage extractor excludes `string` as a language keyword, so the
owning file's `used_symbols` set is empty. -/
def c1Cache : FileCache :=
  [("src/a.ts",
    { path := "src/a.ts",
      exports := [{ name := "string", filePath := "src/a.ts", lineNumber := 1, exportType := "const" }],
      symbols := [{ name := "string", filePath := "src/a.ts", lineNumber := 1, symbolType := "const", isExported := true }],
      usedSymbols := [] }),
   ("src/c.ts",
    { path := "src/c.ts",
      imports := [{ name := "string", fromPath := "./a", filePath := "src/c.ts", lineNumber := 1, importType := "named" }] })]

/-- A test file whose sole export is dead (for claim C5). -/
def c5Cache : FileCache :=
  [("src/x.test.ts",
    { path := "src/x.test.ts",
      exports := [{ name := "foo", filePath := "src/x.test.ts", lineNumber := 1, exportType := "const" }] })]

/-- Two sibling files, both with a single dead export (for claims C5 and
C6). -/
def c6Cache : FileCache :=
  [("src/dd/a.ts",
    { path := "src/dd/a.ts",
      exports := [{ name := "fa", filePath := "src/dd/a.ts", lineNumber := 1, exportType := "const" }] }),
   ("src/dd/b.ts",
    { path := "src/dd/b.ts",
      exports := [{ name := "fb", filePath := "src/dd/b.ts", lineNumber := 1, exportType := "const" }] })]

def c6DeadKeys : List SymKey :=
  [⟨"src/dd/a.ts", "fa"⟩, ⟨"src/dd/b.ts", "fb"⟩]

/-- A well-behaved variant of `c1Cache`: the exported symbol `used` is
imported, and the exporting file records no local symbols. -/
def c1GoodCache : FileCache :=
  [("src/a.ts",
    { path := "src/a.ts",
      exports := [{ name := "used", filePath := "src/a.ts", lineNumber := 1, exportType := "const" }] }),
   ("src/c.ts",
    { path := "src/c.ts",
      imports := [{ name := "used", fromPath := "./a", filePath := "src/c.ts", lineNumber := 1, importType := "named" }] })]

/-- The invariant of `DependencyGraph` construction stated by the spec's
data-model section. -/
def graphMapsConsistent (g : DependencyGraph) : Prop :=
  (∀ a b : SymKey, b ∈ getSet g.dependencies a ↔ a ∈ getSet g.dependents b) ∧
  (∀ a b : SymKey, b ∈ getSet g.dependencies a →
      a ∈ g.allSymbols ∧ b ∈ g.allSymbols) ∧
  (∀ s : SymKey, s ∈ g.exportedSymbols → s ∈ g.allSymbols)


def deadTdisjoint (g : DependencyGraph) : Prop :=
  ∀ s ∈ g.transitivelyDead, s ∉ g.deadSymbols


/-! ## Basic lemmas about the set and map renderings -/

theorem mem_addElem {s : List SymKey} {v w : SymKey} :
    w ∈ addElem s v ↔ w ∈ s ∨ w = v := by
  unfold addElem
  split
  · next h =>
    constructor
    · exact Or.inl
    · rintro (h' | rfl)
      · exact h'
      · exact List.elem_iff.mp h
  · simp [List.mem_append]

theorem mem_of_mem_addElem {s : List SymKey} {v w : SymKey}
    (hw : w ∈ s) : w ∈ addElem s v := mem_addElem.mpr (Or.inl hw)

theorem self_mem_addElem {s : List SymKey} {v : SymKey} : v ∈ addElem s v :=
  mem_addElem.mpr (Or.inr rfl)

theorem getSet_nil (k : SymKey) : getSet [] k = [] := rfl

theorem getSet_cons (k₀ : SymKey) (vs : List SymKey)
    (tl : List (SymKey × List SymKey)) (k' : SymKey) :
    getSet ((k₀, vs) :: tl) k' = if k₀ = k' then vs else getSet tl k' := by
  by_cases h : k₀ = k'
  · simp [getSet, List.find?, h]
  · have hb : (k₀ == k') = false := by simp [h]
    simp [getSet, List.find?, hb, h]

theorem getSet_addToBucket (m : List (SymKey × List SymKey)) (k v k' : SymKey) :
    getSet (addToBucket m k v) k' =
      if k' = k then addElem (getSet m k) v else getSet m k' := by
  induction m with
  | nil =>
    show getSet [(k, [v])] k' = _
    simp only [getSet_cons, getSet_nil]
    by_cases h : k' = k
    · simp [h, addElem]
    · simp [h, Ne.symm h]
  | cons hd tl ih =>
    obtain ⟨k₀, vs₀⟩ := hd
    by_cases h0 : k₀ = k
    · subst h0
      have hb : addToBucket ((k₀, vs₀) :: tl) k₀ v = (k₀, addElem vs₀ v) :: tl := by
        simp [addToBucket]
      rw [hb]
      simp only [getSet_cons]
      by_cases h' : k₀ = k'
      · subst h'
        simp
      · simp [h', Ne.symm h']
    · have h0' : (k₀ == k) = false := by simp [h0]
      have hb : addToBucket ((k₀, vs₀) :: tl) k v = (k₀, vs₀) :: addToBucket tl k v := by
        simp [addToBucket, h0']
      rw [hb]
      simp only [getSet_cons, ih]
      by_cases h' : k₀ = k'
      · have hk : k' ≠ k := fun hh => h0 (h'.trans hh)
        simp [h', hk]
      · simp [h', h0]

/-! ## Claim C10: consistency of the forward and inverse edge maps -/

/-- The invariant of `DependencyGraph` construction stated by the spec's
data-model section. -/
theorem applyOp_consistent {g : DependencyGraph} (op : GraphOp)
    (h : graphMapsConsistent g) : graphMapsConsistent (applyOp g op) := by
  obtain ⟨h1, h2, h3⟩ := h
  cases op with
  | addDep x y =>
    refine ⟨?_, ?_, ?_⟩
    · intro a b
      simp only [applyOp, DependencyGraph.addDependency, getSet_addToBucket]
      by_cases hax : a = x <;> by_cases hby : b = y
      · subst hax; subst hby
        rw [if_pos rfl, if_pos rfl]
        exact iff_of_true self_mem_addElem self_mem_addElem
      · subst hax
        rw [if_pos rfl, if_neg hby]
        rw [mem_addElem]
        constructor
        · rintro (hb | rfl)
          · exact (h1 a b).mp hb
          · exact absurd rfl hby
        · intro ha
          exact Or.inl ((h1 a b).mpr ha)
      · subst hby
        rw [if_neg hax, if_pos rfl]
        rw [mem_addElem]
        constructor
        · intro hb
          exact Or.inl ((h1 a b).mp hb)
        · rintro (ha | rfl)
          · exact (h1 a b).mpr ha
          · exact absurd rfl hax
      · rw [if_neg hax, if_neg hby]
        exact h1 a b
    · intro a b
      simp only [applyOp, DependencyGraph.addDependency, getSet_addToBucket]
      by_cases hax : a = x
      · subst hax
        rw [if_pos rfl]
        intro hb
        rcases mem_addElem.mp hb with hb | rfl
        · obtain ⟨hm1, hm2⟩ := h2 a b hb
          exact ⟨mem_of_mem_addElem (mem_of_mem_addElem hm1),
            mem_of_mem_addElem (mem_of_mem_addElem hm2)⟩
        · exact ⟨mem_of_mem_addElem self_mem_addElem, self_mem_addElem⟩
      · rw [if_neg hax]
        intro hb
        obtain ⟨hm1, hm2⟩ := h2 a b hb
        exact ⟨mem_of_mem_addElem (mem_of_mem_addElem hm1),
          mem_of_mem_addElem (mem_of_mem_addElem hm2)⟩
    · intro s hs
      exact mem_of_mem_addElem (mem_of_mem_addElem (h3 s hs))
  | markExport x =>
    refine ⟨h1, ?_, ?_⟩
    · intro a b hb
      obtain ⟨hm1, hm2⟩ := h2 a b hb
      exact ⟨mem_of_mem_addElem hm1, mem_of_mem_addElem hm2⟩
    · intro s hs
      rcases mem_addElem.mp hs with hs | rfl
      · exact mem_of_mem_addElem (h3 s hs)
      · exact self_mem_addElem
  | markDead x =>
    exact ⟨h1, h2, h3⟩

theorem foldl_applyOp_consistent :
    ∀ (ops : List GraphOp) (g : DependencyGraph),
      graphMapsConsistent g → graphMapsConsistent (ops.foldl applyOp g)
  | [], _, h => h
  | op :: ops, _, h => foldl_applyOp_consistent ops _ (applyOp_consistent op h)

/-- Claim C10: after any sequence of `add_dependency` and `mark_as_export`
calls (and, more generally, any `mark_as_dead` calls interleaved), the
forward and inverse edge maps are mutually consistent — `b` is in
`dependencies[a]` iff `a` is in `dependents[b]` — and every edge endpoint
and every export-marked key is contained in `all_symbols`. -/
theorem c10_dependency_maps_consistent (ops : List GraphOp) :
    (∀ a b : SymKey,
        b ∈ getSet (buildGraph ops).dependencies a ↔
          a ∈ getSet (buildGraph ops).dependents b) ∧
    (∀ a b : SymKey, b ∈ getSet (buildGraph ops).dependencies a →
        a ∈ (buildGraph ops).allSymbols ∧ b ∈ (buildGraph ops).allSymbols) ∧
    (∀ s : SymKey, s ∈ (buildGraph ops).exportedSymbols →
        s ∈ (buildGraph ops).allSymbols) := by
  refine foldl_applyOp_consistent ops {} ⟨?_, ?_, ?_⟩ <;>
    simp [getSet]

/-- Witness for C10, at a concrete two-call build sequence. -/
theorem c10_dependency_maps_consistent_witness :
    (⟨"src/a.ts", "__file__"⟩ : SymKey) ∈
        getSet (buildGraph [.addDep ⟨"src/a.ts", "__file__"⟩
          ⟨"src/b.ts", "foo"⟩]).dependents ⟨"src/b.ts", "foo"⟩ ∧
      (⟨"src/b.ts", "foo"⟩ : SymKey) ∈
        (buildGraph [.addDep ⟨"src/a.ts", "__file__"⟩
          ⟨"src/b.ts", "foo"⟩]).allSymbols := by
  constructor
  · exact ((c10_dependency_maps_consistent
      [.addDep ⟨"src/a.ts", "__file__"⟩ ⟨"src/b.ts", "foo"⟩]).1
      ⟨"src/a.ts", "__file__"⟩ ⟨"src/b.ts", "foo"⟩).mp (by decide)
  · exact ((c10_dependency_maps_consistent
      [.addDep ⟨"src/a.ts", "__file__"⟩ ⟨"src/b.ts", "foo"⟩]).2.1
      ⟨"src/a.ts", "__file__"⟩ ⟨"src/b.ts", "foo"⟩ (by decide)).2

/-! ## Lemmas about the transitive-dead pass -/

theorem not_mem_of_contains_false {s : List SymKey} {v : SymKey}
    (h : s.contains v = false) : v ∉ s := by
  intro hm
  have hc : List.elem v s = true := List.elem_iff.mpr hm
  have h' : List.elem v s = false := h
  rw [h'] at hc
  exact absurd hc (by decide)

/-- Each loop iteration either leaves the state alone or promotes exactly the
inspected symbol into `transitively_dead` and raises the `changed` flag. -/
theorem examineSymbol_cases (acc : DependencyGraph × Bool) (s : SymKey) :
    DependencyGraph.examineSymbol acc s = acc ∨
      (DependencyGraph.examineSymbol acc s =
          ({ acc.1 with transitivelyDead := addElem acc.1.transitivelyDead s },
            true) ∧
        acc.1.deadSymbols.contains s = false ∧
        acc.1.transitivelyDead.contains s = false) := by
  unfold DependencyGraph.examineSymbol
  split
  · exact Or.inl rfl
  · next h1 =>
    split
    · exact Or.inl rfl
    · split
      · exact Or.inl rfl
      · simp only [Bool.or_eq_true, not_or, Bool.not_eq_true] at h1
        exact Or.inr ⟨rfl, h1.1, h1.2⟩

/-- Invariant preserved end-to-end by the pass: the dead set never changes
and every transitively-dead key avoids it. -/
theorem examineSymbol_preserves (acc : DependencyGraph × Bool) (s : SymKey)
    (h : deadTdisjoint acc.1) :
    deadTdisjoint (DependencyGraph.examineSymbol acc s).1 ∧
      (DependencyGraph.examineSymbol acc s).1.deadSymbols =
        acc.1.deadSymbols := by
  rcases examineSymbol_cases acc s with he | ⟨he, hd, _⟩
  · rw [he]; exact ⟨h, rfl⟩
  · rw [he]
    refine ⟨?_, rfl⟩
    intro t htm
    rcases mem_addElem.mp htm with htm | rfl
    · exact h t htm
    · exact not_mem_of_contains_false hd

theorem foldl_examine_preserves :
    ∀ (l : List SymKey) (acc : DependencyGraph × Bool),
      deadTdisjoint acc.1 →
        deadTdisjoint (l.foldl DependencyGraph.examineSymbol acc).1 ∧
          (l.foldl DependencyGraph.examineSymbol acc).1.deadSymbols =
            acc.1.deadSymbols
  | [], _, h => ⟨h, rfl⟩
  | s :: l, acc, h =>
    have h1 := examineSymbol_preserves acc s h
    have h2 := foldl_examine_preserves l _ h1.1
    ⟨h2.1, h2.2.trans h1.2⟩

theorem aux_preserves (fuel : Nat) :
    ∀ g : DependencyGraph, deadTdisjoint g →
      deadTdisjoint (findTransitiveDeadAux fuel g) ∧
        (findTransitiveDeadAux fuel g).deadSymbols = g.deadSymbols := by
  induction fuel with
  | zero => exact fun g h => ⟨h, rfl⟩
  | succ n ih =>
    intro g h
    have hp := foldl_examine_preserves g.allSymbols (g, false) h
    unfold findTransitiveDeadAux
    by_cases hc : (g.runPass).2 = true
    · rw [if_pos hc]
      have := ih (g.runPass).1 hp.1
      exact ⟨this.1, this.2.trans hp.2⟩
    · rw [if_neg hc]
      exact hp

theorem foldl_applyOp_tdead :
    ∀ (ops : List GraphOp) (g : DependencyGraph),
      (ops.foldl applyOp g).transitivelyDead = g.transitivelyDead
  | [], _ => rfl
  | op :: ops, g => by
    have h : (applyOp g op).transitivelyDead = g.transitivelyDead := by
      cases op <;> rfl
    rw [List.foldl_cons, foldl_applyOp_tdead ops, h]

theorem contains_eq_true_iff {s : List SymKey} {v : SymKey} :
    s.contains v = true ↔ v ∈ s := List.elem_iff

theorem contains_eq_false_iff {s : List SymKey} {v : SymKey} :
    s.contains v = false ↔ v ∉ s := by
  constructor
  · exact not_mem_of_contains_false
  · intro h
    cases hc : s.contains v
    · rfl
    · exact absurd (contains_eq_true_iff.mp hc) h

/-- The per-dependent test keeps the inspected symbol alive exactly when the
dependent is in neither dead set and, if it is a file-level pseudo-key, its
owning file still has a live export. -/
theorem dependentBlocks_true_iff (g : DependencyGraph) (d : SymKey) :
    g.dependentBlocks d = true ↔
      (d ∉ g.deadSymbols ∧ d ∉ g.transitivelyDead ∧
        (d.isFileKey = true → g.hasLiveExports d.file = true)) := by
  unfold DependencyGraph.dependentBlocks
  split
  · next h =>
    rw [Bool.or_eq_true] at h
    refine iff_of_false (by decide) ?_
    rintro ⟨hd, ht, _⟩
    rcases h with h | h
    · exact hd (contains_eq_true_iff.mp h)
    · exact ht (contains_eq_true_iff.mp h)
  · next h =>
    simp only [Bool.or_eq_true, not_or, Bool.not_eq_true] at h
    have hd := not_mem_of_contains_false h.1
    have ht := not_mem_of_contains_false h.2
    split
    · next hf =>
      constructor
      · intro hl
        exact ⟨hd, ht, fun _ => hl⟩
      · rintro ⟨_, _, himp⟩
        exact himp hf
    · next hf =>
      refine iff_of_true rfl ⟨hd, ht, fun hk => absurd hk hf⟩

/-- The promotion criterion of a single loop iteration. -/
theorem examineSymbol_promotes_iff (g : DependencyGraph) (c : Bool)
    (s : SymKey) :
    (s ∈ (DependencyGraph.examineSymbol (g, c) s).1.transitivelyDead ∧
        s ∉ g.transitivelyDead) ↔
      (s ∉ g.deadSymbols ∧ s ∉ g.transitivelyDead ∧
        getSet g.dependents s ≠ [] ∧
        ∀ d ∈ getSet g.dependents s,
          d ∈ g.deadSymbols ∨ d ∈ g.transitivelyDead ∨
            (d.isFileKey = true ∧ g.hasLiveExports d.file = false)) := by
  unfold DependencyGraph.examineSymbol
  split
  · next h1 =>
    rw [Bool.or_eq_true] at h1
    refine iff_of_false (fun hp => hp.2 hp.1) ?_
    rintro ⟨hd, ht, _, _⟩
    rcases h1 with h1 | h1
    · exact hd (contains_eq_true_iff.mp h1)
    · exact ht (contains_eq_true_iff.mp h1)
  · next h1 =>
    split
    · next h2 =>
      refine iff_of_false (fun hp => hp.2 hp.1) ?_
      rintro ⟨_, _, hne, _⟩
      exact hne (List.isEmpty_iff.mp h2)
    · next h2 =>
      split
      · next h3 =>
        refine iff_of_false (fun hp => hp.2 hp.1) ?_
        rintro ⟨_, _, _, hall⟩
        rw [List.any_eq_true] at h3
        obtain ⟨d, hdmem, hdb⟩ := h3
        have hnb := (dependentBlocks_true_iff g d).mp hdb
        rcases hall d hdmem with hm | hm | ⟨hk, hl⟩
        · exact hnb.1 hm
        · exact hnb.2.1 hm
        · rw [hnb.2.2 hk] at hl
          exact absurd hl (by decide)
      · next h3 =>
        simp only [Bool.or_eq_true, not_or, Bool.not_eq_true] at h1
        have hd := not_mem_of_contains_false h1.1
        have ht := not_mem_of_contains_false h1.2
        refine iff_of_true ⟨self_mem_addElem, ht⟩ ⟨hd, ht, ?_, ?_⟩
        · intro he
          exact h2 (by rw [he]; rfl)
        · intro d hdm
          have hb : g.dependentBlocks d = false := by
            cases hbx : g.dependentBlocks d
            · rfl
            · exact absurd (List.any_eq_true.mpr ⟨d, hdm, hbx⟩) h3
          by_cases hm1 : d ∈ g.deadSymbols
          · exact Or.inl hm1
          · by_cases hm2 : d ∈ g.transitivelyDead
            · exact Or.inr (Or.inl hm2)
            · right; right
              by_cases hk : d.isFileKey = true
              · refine ⟨hk, ?_⟩
                cases hl : g.hasLiveExports d.file
                · rfl
                · have hbt : g.dependentBlocks d = true :=
                    (dependentBlocks_true_iff g d).mpr ⟨hm1, hm2, fun _ => hl⟩
                  rw [hbt] at hb
                  exact absurd hb (by decide)
              · have hbt : g.dependentBlocks d = true :=
                  (dependentBlocks_true_iff g d).mpr
                    ⟨hm1, hm2, fun hkk => absurd hkk hk⟩
                rw [hbt] at hb
                exact absurd hb (by decide)

theorem foldl_examine_flag_true :
    ∀ (l : List SymKey) (g : DependencyGraph),
      (l.foldl DependencyGraph.examineSymbol (g, true)).2 = true
  | [], _ => rfl
  | s :: l, g => by
    rcases examineSymbol_cases (g, true) s with he | ⟨he, _, _⟩
    · rw [List.foldl_cons, he]
      exact foldl_examine_flag_true l g
    · rw [List.foldl_cons, he]
      exact foldl_examine_flag_true l _

theorem foldl_examine_unchanged :
    ∀ (l : List SymKey) (g : DependencyGraph),
      (l.foldl DependencyGraph.examineSymbol (g, false)).2 = false →
        (l.foldl DependencyGraph.examineSymbol (g, false)).1 = g
  | [], _, _ => rfl
  | s :: l, g, h => by
    rcases examineSymbol_cases (g, false) s with he | ⟨he, _, _⟩
    · rw [List.foldl_cons, he] at h ⊢
      exact foldl_examine_unchanged l g h
    · rw [List.foldl_cons, he] at h
      rw [foldl_examine_flag_true] at h
      exact absurd h (by decide)

/-- A pass that reports no change did not modify the graph. -/
theorem runPass_unchanged (g : DependencyGraph) (h : g.runPass.2 = false) :
    g.runPass.1 = g := foldl_examine_unchanged g.allSymbols g h

theorem aux_pass_count :
    ∀ (fuel : Nat) (g : DependencyGraph),
      ∃ n ≤ fuel, findTransitiveDeadAux fuel g = iterPass n g ∧
        (n = fuel ∨ (iterPass n g).runPass.2 = false) := by
  intro fuel
  induction fuel with
  | zero => exact fun g => ⟨0, le_rfl, rfl, Or.inl rfl⟩
  | succ m ih =>
    intro g
    by_cases hc : g.runPass.2 = true
    · obtain ⟨n, hn, heq, hcond⟩ := ih g.runPass.1
      refine ⟨n + 1, Nat.succ_le_succ hn, ?_, ?_⟩
      · show findTransitiveDeadAux (m + 1) g = iterPass (n + 1) g
        unfold findTransitiveDeadAux
        rw [if_pos hc]
        exact heq
      · rcases hcond with h | h
        · exact Or.inl (by rw [h])
        · exact Or.inr h
    · have hf : g.runPass.2 = false := by
        cases h2 : g.runPass.2
        · rfl
        · exact absurd h2 hc
      refine ⟨0, Nat.zero_le _, ?_, Or.inr hf⟩
      unfold findTransitiveDeadAux
      rw [if_neg hc]
      exact runPass_unchanged g hf

/-- Claim C2: in each pass of transitive-dead propagation, a symbol
inspected by the loop is promoted to `transitively_dead` exactly when it is
not already in either dead set, has at least one dependent, and every
dependent is dead, transitively dead, or a file-level pseudo-key whose
owning file has no live export; and the pass loop stops at the first pass
that changes nothing, or after the fixed maximum of 10 passes. -/
theorem c2_transitive_promotion :
    (∀ (g : DependencyGraph) (c : Bool) (s : SymKey),
        (s ∈ (DependencyGraph.examineSymbol (g, c) s).1.transitivelyDead ∧
            s ∉ g.transitivelyDead) ↔
          (s ∉ g.deadSymbols ∧ s ∉ g.transitivelyDead ∧
            getSet g.dependents s ≠ [] ∧
            ∀ d ∈ getSet g.dependents s,
              d ∈ g.deadSymbols ∨ d ∈ g.transitivelyDead ∨
                (d.isFileKey = true ∧ g.hasLiveExports d.file = false))) ∧
    (∀ g : DependencyGraph,
        ∃ n ≤ 10, g.findTransitiveDeadCode = iterPass n g ∧
          (n = 10 ∨ (iterPass n g).runPass.2 = false)) :=
  ⟨examineSymbol_promotes_iff, fun g => aux_pass_count 10 g⟩

/-- Witness for C2: a concrete promotion — `h` in `src/u.ts` is used only
by the dead export `x` of `src/m.ts`, and the iteration promotes it. -/
theorem c2_transitive_promotion_witness :
    (⟨"src/u.ts", "h"⟩ : SymKey) ∈
      (DependencyGraph.examineSymbol
        ({ dependents := [(⟨"src/u.ts", "h"⟩, [⟨"src/m.ts", "x"⟩])],
           allSymbols := [⟨"src/m.ts", "x"⟩, ⟨"src/u.ts", "h"⟩],
           deadSymbols := [⟨"src/m.ts", "x"⟩] }, false)
        ⟨"src/u.ts", "h"⟩).1.transitivelyDead :=
  ((c2_transitive_promotion.1
      { dependents := [(⟨"src/u.ts", "h"⟩, [⟨"src/m.ts", "x"⟩])],
        allSymbols := [⟨"src/m.ts", "x"⟩, ⟨"src/u.ts", "h"⟩],
        deadSymbols := [⟨"src/m.ts", "x"⟩] } false ⟨"src/u.ts", "h"⟩).mpr
    ⟨by decide, by decide, by decide, by decide⟩).1

/-- Claim C4: after graph construction (any sequence of building calls,
which leaves `transitively_dead` empty) followed by
`find_transitive_dead_code`, the dead set and the transitively-dead set are
disjoint. -/
theorem c4_dead_tdead_disjoint (ops : List GraphOp) (s : SymKey)
    (h : s ∈ (buildGraph ops).findTransitiveDeadCode.transitivelyDead) :
    s ∉ (buildGraph ops).findTransitiveDeadCode.deadSymbols := by
  have hempty : (buildGraph ops).transitivelyDead = [] :=
    foldl_applyOp_tdead ops {}
  have hdisj : deadTdisjoint (buildGraph ops) := by
    intro t ht
    rw [hempty] at ht
    cases ht
  exact (aux_preserves 10 (buildGraph ops) hdisj).1 s h

/-- Witness for C4: a live helper used only by a directly-dead export gets
promoted, and indeed lands outside the dead set. -/
theorem c4_dead_tdead_disjoint_witness :
    (⟨"src/u.ts", "h"⟩ : SymKey) ∈
        (buildGraph [.addDep ⟨"src/m.ts", "x"⟩ ⟨"src/u.ts", "h"⟩,
          .markDead ⟨"src/m.ts", "x"⟩]).findTransitiveDeadCode.transitivelyDead ∧
      (⟨"src/u.ts", "h"⟩ : SymKey) ∉
        (buildGraph [.addDep ⟨"src/m.ts", "x"⟩ ⟨"src/u.ts", "h"⟩,
          .markDead ⟨"src/m.ts", "x"⟩]).findTransitiveDeadCode.deadSymbols :=
  ⟨by decide, c4_dead_tdead_disjoint _ _ (by decide)⟩
/-! ## Generic fold lemmas -/

theorem foldl_preserve {α β : Type _} (step : β → α → β) (P : β → Prop) :
    ∀ (l : List α) (b : β), P b →
      (∀ acc x, x ∈ l → P acc → P (step acc x)) → P (l.foldl step b)
  | [], _, hb, _ => hb
  | x :: l, b, hb, hstep =>
    foldl_preserve step P l (step b x) (hstep b x (List.mem_cons_self x l) hb)
      (fun acc y hy h => hstep acc y (List.mem_cons_of_mem x hy) h)

theorem foldl_establish {α β : Type _} (step : β → α → β) (P : β → Prop) :
    ∀ (l : List α) (b : β) (x : α), x ∈ l →
      (∀ acc y, y ∈ l → P acc → P (step acc y)) →
      (∀ acc, P (step acc x)) → P (l.foldl step b)
  | [], _, _, hx, _, _ => absurd hx (List.not_mem_nil _)
  | y :: l, b, x, hx, hstep, hest => by
    rcases List.mem_cons.mp hx with rfl | hx'
    · exact foldl_preserve step P l (step b x) (hest b)
        (fun acc z hz h => hstep acc z (List.mem_cons_of_mem _ hz) h)
    · exact foldl_establish step P l (step b y) x hx'
        (fun acc z hz h => hstep acc z (List.mem_cons_of_mem _ hz) h) hest

theorem mem_getSet_addToBucket_of {m : List (SymKey × List SymKey)}
    {k v k' w : SymKey} (h : w ∈ getSet m k') :
    w ∈ getSet (addToBucket m k v) k' := by
  rw [getSet_addToBucket]
  split
  · next he => exact mem_of_mem_addElem (he ▸ h)
  · exact h

theorem mem_getSet_addToBucket_self (m : List (SymKey × List SymKey))
    (k v : SymKey) : v ∈ getSet (addToBucket m k v) k := by
  rw [getSet_addToBucket, if_pos rfl]
  exact self_mem_addElem

/-! ## Claim C9: unreadable files yield an empty analysis -/

/-- Claim C9: when a file's read raises `OSError` or `UnicodeDecodeError`,
per-file analysis returns the empty `FileAnalysis` for that file — no
exports, imports, symbols, or used identifiers — instead of raising, and
the overall analysis map still receives one entry per listed file. -/
theorem c9_unreadable_file_empty_analysis (ext : SourceExtractor)
    (files : List (String × Except ReadError String)) (p : String)
    (err : ReadError) (hmem : (p, Except.error err) ∈ files) :
    (analyzeFile ext p (Except.error err)).exports = [] ∧
    (analyzeFile ext p (Except.error err)).imports = [] ∧
    (analyzeFile ext p (Except.error err)).symbols = [] ∧
    (analyzeFile ext p (Except.error err)).usedSymbols = [] ∧
    (p, analyzeFile ext p (Except.error err)) ∈ runAnalyzeAll ext files ∧
    (runAnalyzeAll ext files).length = files.length := by
  refine ⟨rfl, rfl, rfl, rfl, ?_, ?_⟩
  · exact List.mem_map.mpr ⟨(p, Except.error err), hmem, rfl⟩
  · simp [runAnalyzeAll]

/-- Witness for C9, with a trivial extractor and a single failing file. -/
theorem c9_unreadable_file_empty_analysis_witness :
    (analyzeFile ⟨fun _ _ => [], fun _ _ => [], fun _ _ => [], fun _ => [],
        fun _ _ => []⟩ "src/bad.ts" (Except.error ReadError.osError)).exports
        = [] ∧
      (runAnalyzeAll ⟨fun _ _ => [], fun _ _ => [], fun _ _ => [],
          fun _ => [], fun _ _ => []⟩
        [("src/bad.ts", Except.error ReadError.osError)]).length = 1 := by
  have h := c9_unreadable_file_empty_analysis
    ⟨fun _ _ => [], fun _ _ => [], fun _ _ => [], fun _ => [], fun _ _ => []⟩
    [("src/bad.ts", Except.error ReadError.osError)] "src/bad.ts"
    ReadError.osError (List.mem_singleton.mpr rfl)
  exact ⟨h.1, h.2.2.2.2.2⟩

/-! ## Claim C3: where re-export chain entries are keyed -/

theorem chainsWildcardStep_preserves (resolve : Resolver) (cache : FileCache)
    (fp sp : String) {acc : List (SymKey × List SymKey)} (se : Export)
    {k w : SymKey} (h : w ∈ getSet acc k) :
    w ∈ getSet (chainsWildcardStep resolve cache fp sp acc se) k := by
  unfold chainsWildcardStep
  split
  · split
    · split
      · exact h
      · split
        · exact mem_getSet_addToBucket_of h
        · exact h
    · exact h
  · exact mem_getSet_addToBucket_of h

theorem chainsExportStep_preserves (resolve : Resolver) (cache : FileCache)
    {acc : List (SymKey × List SymKey)} (e : Export) {k w : SymKey}
    (h : w ∈ getSet acc k) :
    w ∈ getSet (chainsExportStep resolve cache acc e) k := by
  unfold chainsExportStep
  split
  · split
    · exact h
    · split
      · split
        · exact foldl_preserve _ (fun m => w ∈ getSet m k) _ acc h
            (fun acc' se _ h' =>
              chainsWildcardStep_preserves resolve cache _ _ se h')
        · exact mem_getSet_addToBucket_of h
      · exact h
  · exact h

/-- Counterexample to claim C3: in the named chain where `src/c.ts`
re-exports `foo` from `src/a.ts` and `src/a.ts` re-exports it from the
declaring `src/b.ts`, the chain entry for C's alias is keyed by the
intermediate file A's key, not by B's original key. -/
theorem c3_counterexample :
    (⟨"src/c.ts", "foo"⟩ : SymKey) ∈
        getSet (buildReexportChains c3Resolve c3Cache)
          ⟨"src/a.ts", "foo"⟩ ∧
      (⟨"src/c.ts", "foo"⟩ : SymKey) ∉
        getSet (buildReexportChains c3Resolve c3Cache)
          ⟨"src/b.ts", "foo"⟩ := by
  constructor
  · decide
  · decide

/-- Claim C3 (amended): a named (non-wildcard) re-export whose source
resolves to a cached file contributes a chain entry keyed by the
*immediately* resolved source file's key under the pre-alias name — the
chain map is not transitively flattened for named re-exports (only the
wildcard branch follows one further re-export level). -/
theorem c3_chains_keyed_by_immediate_source (resolve : Resolver)
    (cache : FileCache) (p : String) (fa : FileAnalysis) (e : Export)
    (sp : String) (hpf : (p, fa) ∈ cache) (he : e ∈ fa.exports)
    (hre : e.isReexport = true) (hft : optTruthy e.fromPath = true)
    (hwc : (e.exportType == "wildcard") = false)
    (hres : resolve (e.fromPath.getD "") e.filePath = some sp)
    (hsp : (lookupCache cache sp).isSome = true) :
    (⟨e.filePath, e.name⟩ : SymKey) ∈
      getSet (buildReexportChains resolve cache)
        ⟨sp, strOr e.originalName e.name⟩ := by
  have hstep : ∀ (acc : List (SymKey × List SymKey)),
      (⟨e.filePath, e.name⟩ : SymKey) ∈
        getSet (chainsExportStep resolve cache acc e)
          ⟨sp, strOr e.originalName e.name⟩ := by
    intro acc
    unfold chainsExportStep
    rw [hre, hft]
    simp only [Bool.and_self, if_true, hres]
    rw [if_pos hsp, if_neg (by rw [hwc]; exact fun hh => absurd hh (by decide))]
    exact mem_getSet_addToBucket_self acc _ _
  unfold buildReexportChains
  refine foldl_establish _
    (fun m => (⟨e.filePath, e.name⟩ : SymKey) ∈
      getSet m ⟨sp, strOr e.originalName e.name⟩) cache [] (p, fa) hpf ?_ ?_
  · intro acc pfa _ h
    exact foldl_preserve (chainsExportStep resolve cache)
      (fun m => (⟨e.filePath, e.name⟩ : SymKey) ∈
        getSet m ⟨sp, strOr e.originalName e.name⟩)
      pfa.2.exports acc h
      (fun acc' e' _ h' => chainsExportStep_preserves resolve cache e' h')
  · intro acc
    exact foldl_establish (chainsExportStep resolve cache)
      (fun m => (⟨e.filePath, e.name⟩ : SymKey) ∈
        getSet m ⟨sp, strOr e.originalName e.name⟩)
      fa.exports acc e he
      (fun acc' e' _ h' => chainsExportStep_preserves resolve cache e' h')
      hstep

/-- Witness for the amended C3, at the concrete three-file chain: A's
named re-export of `foo` from B is keyed under B (the immediate source
seen from A). -/
theorem c3_chains_keyed_by_immediate_source_witness :
    (⟨"src/a.ts", "foo"⟩ : SymKey) ∈
      getSet (buildReexportChains c3Resolve c3Cache) ⟨"src/b.ts", "foo"⟩ :=
  c3_chains_keyed_by_immediate_source c3Resolve c3Cache "src/a.ts"
    { path := "src/a.ts",
      exports := [{ name := "foo", filePath := "src/a.ts", lineNumber := 1, exportType := "named", isReexport := true, fromPath := some "./b" }] }
    { name := "foo", filePath := "src/a.ts", lineNumber := 1,
      exportType := "named", isReexport := true, fromPath := some "./b" }
    "src/b.ts" (by decide) (by decide) rfl rfl rfl rfl rfl

/-! ## Claim C1: imported exports and the direct-dead marking pass -/

theorem importNamespaceStep_preserves (resolve : Resolver) (rp : String)
    {acc : List SymKey} (e : Export) {w : SymKey} (h : w ∈ acc) :
    w ∈ importNamespaceStep resolve rp acc e := by
  unfold importNamespaceStep
  split
  · split
    · exact h
    · exact mem_of_mem_addElem h
  · exact mem_of_mem_addElem h

theorem importReexportTail_preserves (resolve : Resolver) (cache : FileCache)
    (rp : String) (imp : Import) {acc1 : List SymKey} {w : SymKey}
    (h : w ∈ acc1) : w ∈ importReexportTail resolve cache rp imp acc1 := by
  unfold importReexportTail
  split
  · exact h
  · split
    · exact mem_of_mem_addElem h
    · exact h

theorem importDefaultTail_preserves (rp : String) (imp : Import)
    {acc2 : List SymKey} {w : SymKey} (h : w ∈ acc2) :
    w ∈ importDefaultTail rp imp acc2 := by
  unfold importDefaultTail
  split
  · exact mem_of_mem_addElem h
  · exact h

theorem importStep_preserves (resolve : Resolver) (cache : FileCache)
    {acc : List SymKey} (imp : Import) {w : SymKey} (h : w ∈ acc) :
    w ∈ importStep resolve cache acc imp := by
  unfold importStep
  split
  · exact h
  · split
    · split
      · exact h
      · exact foldl_preserve (importNamespaceStep resolve _) (fun s => w ∈ s)
          _ acc h
          (fun acc' e _ h' => importNamespaceStep_preserves resolve _ e h')
    · exact importDefaultTail_preserves _ imp
        (importReexportTail_preserves resolve cache _ imp
          (mem_of_mem_addElem h))

theorem importStep_adds_target (resolve : Resolver) (cache : FileCache)
    (acc : List SymKey) (imp : Import) (k : SymKey)
    (hns : (imp.importType == "namespace") = false)
    (hres : resolve imp.fromPath imp.filePath = some k.file)
    (hn : strOr imp.originalName imp.name = k.name) :
    k ∈ importStep resolve cache acc imp := by
  unfold importStep
  simp only [hres, hns, Bool.false_eq_true, if_false]
  apply importDefaultTail_preserves
  apply importReexportTail_preserves
  rw [hn]
  exact self_mem_addElem

theorem mem_importedSymbolsOf (resolve : Resolver) (cache : FileCache)
    (pfa : String × FileAnalysis) (imp : Import) (k : SymKey)
    (hpf : pfa ∈ cache) (him : imp ∈ pfa.2.imports)
    (hns : (imp.importType == "namespace") = false)
    (hres : resolve imp.fromPath imp.filePath = some k.file)
    (hn : strOr imp.originalName imp.name = k.name) :
    k ∈ importedSymbolsOf resolve cache := by
  unfold importedSymbolsOf
  refine foldl_establish _ (fun s => k ∈ s) cache [] pfa hpf ?_ ?_
  · intro acc pfa' _ h
    exact foldl_preserve (importStep resolve cache) (fun s => k ∈ s)
      pfa'.2.imports acc h
      (fun acc' i _ h' => importStep_preserves resolve cache i h')
  · intro acc
    exact foldl_establish (importStep resolve cache) (fun s => k ∈ s)
      pfa.2.imports acc imp him
      (fun acc' i _ h' => importStep_preserves resolve cache i h')
      (fun acc' => importStep_adds_target resolve cache acc' imp k hns hres hn)

theorem exportIsUsed_of_imported (cache : FileCache)
    (chains : List (SymKey × List SymKey)) (imported : List SymKey)
    (k : SymKey) (e : Export)
    (h : k ∈ imported ∨ ∃ a ∈ getSet chains k, a ∈ imported) :
    exportIsUsed cache chains imported k e = true := by
  unfold exportIsUsed
  rcases h with h | ⟨a, ha, hai⟩
  · rw [contains_eq_true_iff.mpr h]
    simp
  · have hany : (getSet chains k).any (fun rk => imported.contains rk) = true :=
      List.any_eq_true.mpr ⟨a, ha, contains_eq_true_iff.mpr hai⟩
    rw [hany]
    simp

theorem deadExportStep_not_mem (cache : FileCache)
    (chains : List (SymKey × List SymKey)) (imported : List SymKey)
    {acc : List SymKey} (ke : SymKey × Export) {key : SymKey}
    (hna : key ∉ acc)
    (hused : ke.1 = key → key ∈ imported ∨
      ∃ a ∈ getSet chains key, a ∈ imported) :
    key ∉ deadExportStep cache chains imported acc ke := by
  unfold deadExportStep
  split
  · exact hna
  · split
    · exact hna
    · next hus =>
      intro hmem
      rcases mem_addElem.mp hmem with hm | rfl
      · exact hna hm
      · exact hus (exportIsUsed_of_imported cache chains imported ke.1 ke.2
          (hused rfl))

theorem localTailStep_not_mem (fa : FileAnalysis) {acc : List SymKey}
    (s : Symbol) {key : SymKey} (hna : key ∉ acc)
    (hs : (⟨s.filePath, s.name⟩ : SymKey) = key →
      fa.usedSymbols.contains s.name = true ∨
        strStartsWith s.name "_" = true ∨ s.symbolType = "interface" ∨
        s.symbolType = "type") :
    key ∉ localTailStep fa acc s := by
  unfold localTailStep
  split
  · next hnotused =>
    split
    · next hcond =>
      intro hmem
      rcases mem_addElem.mp hmem with hm | heq
      · exact hna hm
      · rcases hs heq.symm with h1 | h2 | h3 | h4
        · simp [h1] at hnotused
          exact hnotused (List.elem_iff.mp h1)
        · simp [h2] at hcond
        · simp [h3] at hcond
        · simp [h4] at hcond
    · exact hna
  · exact hna

/-- Counterexample to claim C1: `src/a.ts` exports a symbol named
`string` (from `export const string = ...`), `src/c.ts` imports it through
a resolved specifier, yet `_mark_dead_symbols` places the symbol's key in
the dead set — the unused-local-symbol tail fires because `string` is on
the identifier extractor's keyword exclusion list and therefore absent
from the file's `used_symbols`. -/
theorem c1_counterexample :
    c1Resolve "./a" "src/c.ts" = some "src/a.ts" ∧
    (∃ pfa ∈ c1Cache, ∃ imp ∈ pfa.2.imports,
      (imp.importType == "namespace") = false ∧
        c1Resolve imp.fromPath imp.filePath = some "src/a.ts" ∧
        strOr imp.originalName imp.name = "string") ∧
    (∃ pfa ∈ c1Cache, ∃ e ∈ pfa.2.exports,
      e.filePath = "src/a.ts" ∧ e.name = "string" ∧ e.isReexport = false) ∧
    (⟨"src/a.ts", "string"⟩ : SymKey) ∈ markDeadSymbols c1Resolve c1Cache := by
  refine ⟨rfl, ?_, ?_, ?_⟩ <;> decide

/-- Claim C1 (amended): if some non-namespace import's specifier resolves
to S's file and targets S's name — directly, or through an alias recorded
for S in the re-export chain map — then the export-marking phase never
marks S dead, and S's key stays out of the dead set provided the
unused-local-symbol tail does not fire for it (that is, every symbol
record carrying S's key is in its file's used-symbols set, or starts with
`_`, or is an interface/type). -/
theorem c1_imported_export_not_marked_dead (resolve : Resolver)
    (cache : FileCache) (S : SymKey)
    (htarget : ∃ pfa ∈ cache, ∃ imp ∈ pfa.2.imports,
      (imp.importType == "namespace") = false ∧
      ((resolve imp.fromPath imp.filePath = some S.file ∧
          strOr imp.originalName imp.name = S.name) ∨
        ∃ a ∈ getSet (buildReexportChains resolve cache) S,
          resolve imp.fromPath imp.filePath = some a.file ∧
            strOr imp.originalName imp.name = a.name))
    (hloc : ∀ pfa ∈ cache, ∀ s ∈ pfa.2.symbols,
      (⟨s.filePath, s.name⟩ : SymKey) = S →
        pfa.2.usedSymbols.contains s.name = true ∨
          strStartsWith s.name "_" = true ∨ s.symbolType = "interface" ∨
          s.symbolType = "type") :
    S ∉ markDeadSymbols resolve cache := by
  obtain ⟨pfa, hpf, imp, him, hns, hcase⟩ := htarget
  have himported : S ∈ importedSymbolsOf resolve cache ∨
      ∃ a ∈ getSet (buildReexportChains resolve cache) S,
        a ∈ importedSymbolsOf resolve cache := by
    rcases hcase with ⟨hres, hn⟩ | ⟨a, ha, hres, hn⟩
    · exact Or.inl
        (mem_importedSymbolsOf resolve cache pfa imp S hpf him hns hres hn)
    · exact Or.inr
        ⟨a, ha, mem_importedSymbolsOf resolve cache pfa imp a hpf him hns
          hres hn⟩
  unfold markDeadSymbols
  refine foldl_preserve _ (fun s => S ∉ s) cache _ ?_ ?_
  · refine foldl_preserve
      (deadExportStep cache (buildReexportChains resolve cache)
        (importedSymbolsOf resolve cache)) (fun s => S ∉ s)
      (allExportsOf cache) [] (List.not_mem_nil S) ?_
    intro acc ke _ hna
    exact deadExportStep_not_mem cache _ _ ke hna (fun _ => himported)
  · intro acc pfa' hp hna
    exact foldl_preserve (localTailStep pfa'.2) (fun s => S ∉ s)
      pfa'.2.symbols acc hna
      (fun acc' s hsmem hna' =>
        localTailStep_not_mem pfa'.2 s hna'
          (fun heq => hloc pfa' hp s hsmem heq))

/-- Witness for the amended C1: `used` in `src/a.ts` is imported by
`src/c.ts` and its file records no local symbols, so it is not marked
dead. -/
theorem c1_imported_export_not_marked_dead_witness :
    (⟨"src/a.ts", "used"⟩ : SymKey) ∉
      markDeadSymbols c1Resolve c1GoodCache :=
  c1_imported_export_not_marked_dead c1Resolve c1GoodCache
    ⟨"src/a.ts", "used"⟩
    ⟨("src/c.ts",
      { path := "src/c.ts",
        imports := [{ name := "used", fromPath := "./a", filePath := "src/c.ts", lineNumber := 1, importType := "named" }] }),
      by decide,
      { name := "used", fromPath := "./a", filePath := "src/c.ts",
        lineNumber := 1, importType := "named" },
      by decide, rfl, Or.inl ⟨rfl, rfl⟩⟩
    (by decide)

/-! ## Claim C7: extraction inside block comments -/

/-- Claim C7 (code bug): on the three-line content `/*` /
`  export const foo = 1` / `*/` — a block comment — the extractor emits an
`Export` record for line 2.  The per-line comment guard only skips lines
that themselves start with `//` or `/*`, so lines inside a block comment
still match the direct-export pattern; the multi-line regex passes of
`_extract_exports` require a brace and match nothing here, so this list is
the function's entire output for this content. -/
theorem c7_block_comment_export_extracted :
    extractExportsLineScan "/*\n export const foo = 1\n*/" "src/a.ts" =
      [{ name := "foo", filePath := "src/a.ts", lineNumber := 2,
         exportType := "const", isReexport := false, fromPath := none,
         originalName := none }] := by
  decide

/-! ## Claim C8: ignore-list loading and glob matching -/

/-- Claim C8 (code bug): loading strips `#`-comment and blank lines as
specified, but `_matches_pattern`'s second `str.replace` corrupts the
first's output — `**` becomes `.[^/]*` (one arbitrary character followed
by one non-separator run) instead of a multi-segment wildcard — so
`a/**/b` fails to match `a/x/y/b`, which the stated `**` semantics
(any sequence of path segments) accepts. -/
theorem c8_glob_translation_bug :
    loadExceptions ["# comment", "", "   ", "a/**/b"] = ["a/**/b"] ∧
      matchesPattern "a/x/y/b" "a/**/b" = false ∧
      specGlobMatches "a/x/y/b" "a/**/b" = true := by
  refine ⟨?_, ?_, ?_⟩ <;> decide

/-! ## Claim C5: dead-file reporting -/

theorem countP_congr_mem {α : Type _} (l : List α) (p q : α → Bool)
    (h : ∀ a ∈ l, p a = q a) : l.countP p = l.countP q := by
  induction l with
  | nil => rfl
  | cons x xs ih =>
    rw [List.countP_cons, List.countP_cons, h x (List.mem_cons_self x xs),
      ih (fun a ha => h a (List.mem_cons_of_mem x ha))]

theorem matchLit_decomp :
    ∀ (pre s rest : List Char), matchLit pre s = some rest → s = pre ++ rest
  | [], s, rest, h => Option.some.inj h
  | _ :: _, [], _, h => by cases h
  | l :: ls, c :: cs, rest, h => by
    unfold matchLit at h
    split at h
    · next hcl =>
      have hd := matchLit_decomp ls cs rest h
      rw [List.cons_append, ← hd, hcl]
    · cases h

theorem strStartsWith_decomp {p pre : String}
    (h : strStartsWith p pre = true) :
    ∃ rest, p.toList = pre.toList ++ rest := by
  unfold strStartsWith matchLitStr at h
  cases hm : matchLit pre.toList p.toList with
  | none => rw [hm] at h; cases h
  | some rest => exact ⟨rest, matchLit_decomp _ _ _ hm⟩

theorem relativeTo_src (p : String) (h : strStartsWith p "src/" = true) :
    p.toList = "src/".toList ++ (relativeTo "src" p).toList := by
  obtain ⟨rest, hrest⟩ := strStartsWith_decomp h
  have hlen : p.toList.length = 4 + rest.length := by
    rw [hrest, List.length_append]
    have h4 : ("src/".toList).length = 4 := by decide
    rw [h4]
  have hne : (p == "src") = false := by
    cases hb : p == "src"
    · rfl
    · have hps : p = "src" := by simpa using hb
      rw [hps] at hlen
      have h3 : ("src".toList).length = 3 := by decide
      rw [h3] at hlen
      omega
  unfold relativeTo
  rw [if_neg (by simp [hne] : ¬(p == "src") = true),
    if_pos (show strStartsWith p ("src" ++ "/") = true from h)]
  show p.toList = "src/".toList ++ p.toList.drop ("src".length + 1)
  rw [hrest]
  have h4 : "src".length + 1 = ("src/".toList).length := by decide
  rw [h4, List.drop_left]

theorem relativeTo_src_inj {p q : String}
    (hp : strStartsWith p "src/" = true)
    (hq : strStartsWith q "src/" = true)
    (heq : relativeTo "src" p = relativeTo "src" q) : p = q := by
  have h1 := relativeTo_src p hp
  have h2 := relativeTo_src q hq
  have hl : p.toList = q.toList := by rw [h1, h2, heq]
  cases p with
  | mk pd =>
    cases q with
    | mk qd =>
      simp only [String.toList] at hl
      rw [hl]

theorem addIssue_error (r : CheckResults) (i : DeadCodeIssue)
    (h : i.severity = "error") :
    r.addIssue i = { r with errors := r.errors ++ [i] } := by
  unfold CheckResults.addIssue
  rw [h]
  simp

theorem detectDeadFilesStep_eq (t : String) (ex : List String)
    (d td : List SymKey) (acc : CheckResults × List String)
    (pfa : String × FileAnalysis) :
    detectDeadFilesStep t ex d td acc pfa =
      if deadFileFilter t ex d td pfa then
        (acc.1.addIssue (deadFileIssue pfa.1 pfa.2), acc.2 ++ [pfa.1])
      else acc := by
  unfold detectDeadFilesStep deadFileFilter
  cases hA : strStartsWith pfa.1 t
  · simp [hA]
  · cases hB : (isTestFile pfa.1 || isException ex pfa.1)
    · cases hC : pfa.2.exports.isEmpty
      · cases hD : fileAllExportsDead d td pfa.1 pfa.2
        · simp [hA, hB, hC, hD]
        · simp [hA, hB, hC, hD]
      · simp [hA, hB, hC]
    · simp [hA, hB]

theorem detectDeadFiles_fold (t : String) (ex : List String)
    (d td : List SymKey) :
    ∀ (cache : FileCache) (r : CheckResults) (df : List String),
      cache.foldl (detectDeadFilesStep t ex d td) (r, df) =
        ({ errors := r.errors ++
            (cache.filter (deadFileFilter t ex d td)).map
              (fun pfa => deadFileIssue pfa.1 pfa.2),
           warnings := r.warnings },
         df ++ (cache.filter (deadFileFilter t ex d td)).map Prod.fst)
  | [], r, df => by simp
  | pfa :: cache, r, df => by
    rw [List.foldl_cons, detectDeadFilesStep_eq]
    cases hF : deadFileFilter t ex d td pfa
    · rw [if_neg (by decide)]
      rw [detectDeadFiles_fold t ex d td cache r df]
      simp [List.filter_cons, hF]
    · rw [if_pos rfl]
      rw [detectDeadFiles_fold t ex d td cache _ _]
      rw [addIssue_error _ _ rfl]
      simp [List.filter_cons, hF, List.append_assoc]

theorem assoc_value_unique :
    ∀ (cache : FileCache) (p : String) (fa fa' : FileAnalysis),
      (cache.map Prod.fst).Nodup → (p, fa) ∈ cache → (p, fa') ∈ cache →
        fa = fa'
  | [], _, _, _, _, h, _ => absurd h (List.not_mem_nil _)
  | (q, g) :: cache, p, fa, fa', hnd, h1, h2 => by
    have hnd' := hnd
    rw [List.map_cons, List.nodup_cons] at hnd'
    rcases List.mem_cons.mp h1 with he1 | h1'
    · rcases List.mem_cons.mp h2 with he2 | h2'
      · rw [Prod.mk.injEq] at he1 he2
        rw [he1.2, he2.2]
      · rw [Prod.mk.injEq] at he1
        have hmm : p ∈ List.map Prod.fst cache :=
          List.mem_map.mpr ⟨(p, fa'), h2', rfl⟩
        rw [he1.1] at hmm
        exact absurd hmm hnd'.1
    · rcases List.mem_cons.mp h2 with he2 | h2'
      · rw [Prod.mk.injEq] at he2
        have hmm : p ∈ List.map Prod.fst cache :=
          List.mem_map.mpr ⟨(p, fa), h1', rfl⟩
        rw [he2.1] at hmm
        exact absurd hmm hnd'.1
      · exact assoc_value_unique cache p fa fa' hnd'.2 h1' h2'

theorem fileAllExportsDead_iff (d td : List SymKey) (p : String)
    (fa : FileAnalysis) :
    fileAllExportsDead d td p fa = true ↔
      ∀ e ∈ fa.exports,
        (⟨p, e.name⟩ : SymKey) ∈ d ∨ (⟨p, e.name⟩ : SymKey) ∈ td := by
  unfold fileAllExportsDead
  rw [List.all_eq_true]
  constructor
  · intro h e he
    have hx := h e he
    rw [Bool.or_eq_true] at hx
    rcases hx with hm | hm
    · exact Or.inl (contains_eq_true_iff.mp hm)
    · exact Or.inr (contains_eq_true_iff.mp hm)
  · intro h e he
    rw [Bool.or_eq_true]
    rcases h e he with hm | hm
    · exact Or.inl (contains_eq_true_iff.mpr hm)
    · exact Or.inr (contains_eq_true_iff.mpr hm)

theorem string_beq_eq_decide (q p : String) : (q == p) = decide (q = p) := by
  by_cases hq : q = p <;> simp [hq]

/-- Counterexample to claim C5: a test file with one export whose key is in
the dead set — every export dead, at least one export — is reported
nowhere: `_detect_dead_files` returns no dead file and no issue for it. -/
theorem c5_counterexample :
    (∃ pfa ∈ c5Cache, pfa.2.exports ≠ [] ∧
      fileAllExportsDead [⟨"src/x.test.ts", "foo"⟩] [] pfa.1 pfa.2 = true) ∧
    (detectDeadFiles "src" [] [⟨"src/x.test.ts", "foo"⟩] [] c5Cache
      { }).2 = [] ∧
    (detectDeadFiles "src" [] [⟨"src/x.test.ts", "foo"⟩] [] c5Cache
      { }).1.errors = [] ∧
    (detectDeadFiles "src" [] [⟨"src/x.test.ts", "foo"⟩] [] c5Cache
      { }).1.warnings = [] := by
  refine ⟨?_, ?_, ?_, ?_⟩ <;> decide

/-- Claim C5 (amended): among cache entries — keyed without duplicates and
all lying under `src/` — that are in the target path and are neither test
files nor ignore-matched, a file is recorded dead iff it declares at least
one export and every export's key is in the dead or transitively-dead set;
when it is, its dead-file issue appears in the error list, exactly one
error carries its relative path with the `__file__` sentinel, no warnings
are produced, and the issue's message carries the count
exports + non-exported locals. -/
theorem c5_dead_file_report (t : String) (ex : List String)
    (d td : List SymKey) (cache : FileCache) (p : String)
    (fa : FileAnalysis)
    (hnodup : (cache.map Prod.fst).Nodup)
    (hsrc : ∀ q ∈ cache, strStartsWith q.1 "src/" = true)
    (hpf : (p, fa) ∈ cache)
    (he1 : strStartsWith p t = true) (he2 : isTestFile p = false)
    (he3 : isException ex p = false) :
    ((p ∈ (detectDeadFiles t ex d td cache {}).2) ↔
      (fa.exports ≠ [] ∧ ∀ e ∈ fa.exports,
        (⟨p, e.name⟩ : SymKey) ∈ d ∨ (⟨p, e.name⟩ : SymKey) ∈ td)) ∧
    (p ∈ (detectDeadFiles t ex d td cache {}).2 →
      deadFileIssue p fa ∈ (detectDeadFiles t ex d td cache {}).1.errors ∧
      (detectDeadFiles t ex d td cache {}).1.errors.countP
        (fun i => i.filePath == some (relativeTo "src" p) &&
          i.symbolName == some "__file__") = 1 ∧
      (detectDeadFiles t ex d td cache {}).1.warnings = []) ∧
    (deadFileIssue p fa).message =
      "Dead file - all exports unused (" ++
        toString (fa.exports.length +
          (fa.symbols.filter (fun s => !s.isExported)).length) ++
        " total symbols)" := by
  have hfold := detectDeadFiles_fold t ex d td cache {} []
  have hout : detectDeadFiles t ex d td cache {} =
      ({ errors := (cache.filter (deadFileFilter t ex d td)).map
          (fun pfa => deadFileIssue pfa.1 pfa.2),
         warnings := [] },
       (cache.filter (deadFileFilter t ex d td)).map Prod.fst) := by
    unfold detectDeadFiles
    rw [hfold]
    simp
  have hpred : deadFileFilter t ex d td (p, fa) =
      (!(fa.exports.isEmpty) && fileAllExportsDead d td p fa) := by
    unfold deadFileFilter
    rw [he1]
    simp [he2, he3]
  refine ⟨?_, ?_, rfl⟩
  · rw [hout]
    constructor
    · intro hmem
      obtain ⟨pfa', hmemf, hfst⟩ := List.mem_map.mp hmem
      obtain ⟨hmemc, hflt⟩ := List.mem_filter.mp hmemf
      obtain ⟨q, fa'⟩ := pfa'
      rw [show q = p from hfst] at hmemc hflt
      have hfa : fa' = fa := assoc_value_unique cache p fa' fa hnodup hmemc hpf
      rw [hfa] at hflt
      rw [hpred, Bool.and_eq_true, Bool.not_eq_true'] at hflt
      refine ⟨?_, (fileAllExportsDead_iff d td p fa).mp hflt.2⟩
      intro hnil
      rw [hnil] at hflt
      exact absurd hflt.1 (by decide)
    · rintro ⟨hne, hall⟩
      refine List.mem_map.mpr ⟨(p, fa), List.mem_filter.mpr ⟨hpf, ?_⟩, rfl⟩
      rw [hpred, Bool.and_eq_true, Bool.not_eq_true']
      refine ⟨?_, (fileAllExportsDead_iff d td p fa).mpr hall⟩
      cases hie : fa.exports.isEmpty
      · rfl
      · exact absurd (List.isEmpty_iff.mp hie) hne
  · intro hmem
    rw [hout] at hmem ⊢
    obtain ⟨pfa', hmemf, hfst⟩ := List.mem_map.mp hmem
    obtain ⟨hmemc, hflt⟩ := List.mem_filter.mp hmemf
    obtain ⟨q, fa'⟩ := pfa'
    rw [show q = p from hfst] at hmemc hmemf hflt
    have hfa : fa' = fa := assoc_value_unique cache p fa' fa hnodup hmemc hpf
    rw [hfa] at hmemc hmemf
    refine ⟨List.mem_map.mpr ⟨(p, fa), hmemf, rfl⟩, ?_, rfl⟩
    rw [List.countP_map]
    have hcongr : (cache.filter (deadFileFilter t ex d td)).countP
        ((fun i => i.filePath == some (relativeTo "src" p) &&
          i.symbolName == some "__file__") ∘
          (fun pfa => deadFileIssue pfa.1 pfa.2)) =
        (cache.filter (deadFileFilter t ex d td)).countP
          (fun pfa => pfa.1 == p) := by
      refine countP_congr_mem _ _ _ ?_
      intro pfa'' hmem''
      obtain ⟨q'', fa''⟩ := pfa''
      have hq'' : strStartsWith q'' "src/" = true :=
        hsrc (q'', fa'') (List.mem_filter.mp hmem'').1
      have hp' : strStartsWith p "src/" = true := hsrc (p, fa) hmemc
      show ((some (relativeTo "src" q'') ==
          some (relativeTo "src" p)) && (some "__file__" ==
          some ("__file__" : String))) = (q'' == p)
      have hsym : (some "__file__" == some ("__file__" : String)) = true := by
        decide
      rw [hsym, Bool.and_true]
      cases hqp : q'' == p
      · have hne : q'' ≠ p := by simpa using hqp
        have hrne : relativeTo "src" q'' ≠ relativeTo "src" p :=
          fun hc => hne (relativeTo_src_inj hq'' hp' hc)
        simp [hrne]
      · have hq : q'' = p := by simpa using hqp
        simp [hq]
    rw [hcongr]
    have hkey : (cache.filter (deadFileFilter t ex d td)).countP
        (fun pfa => pfa.1 == p) =
        ((cache.filter (deadFileFilter t ex d td)).map Prod.fst).count p := by
      rw [List.count, List.countP_map]
      rfl
    rw [hkey]
    refine List.count_eq_one_of_mem ?_ hmem
    exact hnodup.sublist ((List.filter_sublist cache).map Prod.fst)

/-- Witness for the amended C5, at the concrete two-dead-file cache. -/
theorem c5_dead_file_report_witness :
    "src/dd/a.ts" ∈
      (detectDeadFiles "src" [] c6DeadKeys [] c6Cache {}).2 :=
  ((c5_dead_file_report "src" [] c6DeadKeys [] c6Cache "src/dd/a.ts"
    { path := "src/dd/a.ts",
      exports := [{ name := "fa", filePath := "src/dd/a.ts", lineNumber := 1, exportType := "const" }] }
    (by decide) (by decide) (by decide) (by decide) (by decide)
    (by decide)).1).mpr ⟨by decide, by decide⟩

theorem getStrBucket_cons_self (a : String) (ws : List String)
    (rest : List (String × List String)) :
    getStrBucket ((a, ws) :: rest) a = ws := by
  unfold getStrBucket
  simp [List.find?]

theorem getStrBucket_cons_ne (a : String) (ws : List String)
    (rest : List (String × List String)) (k : String)
    (h : (a == k) = false) :
    getStrBucket ((a, ws) :: rest) k = getStrBucket rest k := by
  unfold getStrBucket
  simp only [List.find?, h]

theorem getStrBucket_appendStrBucket :
    ∀ (m : List (String × List String)) (k v k' : String),
      getStrBucket (appendStrBucket m k v) k' =
        getStrBucket m k' ++ (if k == k' then [v] else [])
  | [], k, v, k' => by
    show getStrBucket [(k, [v])] k' = getStrBucket [] k' ++ _
    cases h : k == k'
    · rw [getStrBucket_cons_ne k [v] [] k' h]
      simp [getStrBucket]
    · have hk : k = k' := by simpa using h
      subst hk
      rw [getStrBucket_cons_self]
      simp [getStrBucket]
  | (a, ws) :: rest, k, v, k' => by
    unfold appendStrBucket
    cases hak : a == k
    · rw [if_neg (by simp [hak])]
      cases hak' : a == k'
      · rw [getStrBucket_cons_ne _ _ _ _ hak', getStrBucket_cons_ne _ _ _ _ hak']
        exact getStrBucket_appendStrBucket rest k v k'
      · have h1 : a = k' := by simpa using hak'
        subst h1
        rw [getStrBucket_cons_self, getStrBucket_cons_self]
        have hka : (k == a) = false := by
          cases h : k == a
          · rfl
          · exact absurd (by simpa using h : k = a).symm
              (by simpa using hak : ¬ a = k)
        rw [hka]
        simp
    · have hk : a = k := by simpa using hak
      subst hk
      rw [if_pos (by simp)]
      cases hak' : a == k'
      · rw [getStrBucket_cons_ne _ _ _ _ hak',
          getStrBucket_cons_ne _ _ _ _ hak']
        simp
      · have h1 : a = k' := by simpa using hak'
        subst h1
        rw [getStrBucket_cons_self, getStrBucket_cons_self]
        simp

theorem keys_appendStrBucket_sub :
    ∀ (m : List (String × List String)) (k v a : String),
      a ∈ (appendStrBucket m k v).map Prod.fst →
        a ∈ m.map Prod.fst ∨ a = k
  | [], k, v, a, h => by
    unfold appendStrBucket at h
    right
    simpa using h
  | (b, ws) :: rest, k, v, a, h => by
    unfold appendStrBucket at h
    cases hbk : b == k
    · rw [if_neg (by simp [hbk])] at h
      rw [List.map_cons, List.mem_cons] at h
      rcases h with h | h
      · left
        rw [List.map_cons, List.mem_cons]
        exact Or.inl h
      · rcases keys_appendStrBucket_sub rest k v a h with h' | h'
        · left
          rw [List.map_cons, List.mem_cons]
          exact Or.inr h'
        · right
          exact h'
    · rw [if_pos (by simpa using hbk)] at h
      rw [List.map_cons, List.mem_cons] at h
      rw [List.map_cons, List.mem_cons]
      exact Or.inl h

theorem keys_nodup_appendStrBucket :
    ∀ (m : List (String × List String)) (k v : String),
      (m.map Prod.fst).Nodup →
        ((appendStrBucket m k v).map Prod.fst).Nodup
  | [], k, v, _ => by
    unfold appendStrBucket
    simp
  | (b, ws) :: rest, k, v, hnd => by
    rw [List.map_cons, List.nodup_cons] at hnd
    obtain ⟨hb, hndr⟩ := hnd
    unfold appendStrBucket
    cases hbk : b == k
    · rw [if_neg (by simp [hbk])]
      rw [List.map_cons, List.nodup_cons]
      refine ⟨?_, keys_nodup_appendStrBucket rest k v hndr⟩
      intro hmem
      rcases keys_appendStrBucket_sub rest k v _ hmem with h' | h'
      · exact hb h'
      · exact (by simpa using hbk : ¬ b = k) h'
    · rw [if_pos (by simpa using hbk)]
      rw [List.map_cons, List.nodup_cons]
      exact ⟨hb, hndr⟩

theorem bucketWF_nil : bucketWF [] := by
  constructor
  · simp
  · intro k vs h
    exact absurd h (List.not_mem_nil _)

theorem bucketWF_appendStrBucket :
    ∀ (m : List (String × List String)) (k v : String), bucketWF m →
      bucketWF (appendStrBucket m k v)
  | [], k, v, _ => by
    refine ⟨by unfold appendStrBucket; simp, ?_⟩
    intro k' vs h
    unfold appendStrBucket at h ⊢
    rcases List.mem_cons.mp h with he | he
    · rw [Prod.mk.injEq] at he
      obtain ⟨h1, h2⟩ := he
      refine ⟨?_, ?_⟩
      · rw [h1, h2, getStrBucket_cons_self]
      · rw [h2]
        simp
    · exact absurd he (List.not_mem_nil _)
  | (a, ws) :: rest, k, v, hwf => by
    obtain ⟨hnd, hinv⟩ := hwf
    have hknd := keys_nodup_appendStrBucket ((a, ws) :: rest) k v hnd
    rw [List.map_cons, List.nodup_cons] at hnd
    obtain ⟨ha, hndr⟩ := hnd
    have ha' : a ∉ rest.map Prod.fst := ha
    refine ⟨hknd, ?_⟩
    intro k' vs h
    unfold appendStrBucket at h ⊢
    cases hak : a == k
    · rw [if_neg (by simp [hak])] at h ⊢
      have hwfr : bucketWF rest := by
        refine ⟨hndr, ?_⟩
        intro k0 vs0 h0
        have hk0mem : k0 ∈ rest.map Prod.fst :=
          List.mem_map.mpr ⟨(k0, vs0), h0, rfl⟩
        have hk0a : (a == k0) = false := by
          cases hq : a == k0
          · rfl
          · exact absurd ((by simpa using hq : a = k0) ▸ hk0mem) ha'
        have hv := hinv k0 vs0 (List.mem_cons_of_mem _ h0)
        rwa [getStrBucket_cons_ne _ _ _ _ hk0a] at hv
      obtain ⟨hnd2, hinv2⟩ := bucketWF_appendStrBucket rest k v hwfr
      rcases List.mem_cons.mp h with he | he
      · rw [Prod.mk.injEq] at he
        obtain ⟨h1, h2⟩ := he
        refine ⟨?_, ?_⟩
        · rw [h1, h2, getStrBucket_cons_self]
        · rw [h2]
          exact (hinv a ws (List.mem_cons_self _ _)).2
      · have h2 := hinv2 k' vs he
        have hk'a : (a == k') = false := by
          cases hq : a == k'
          · rfl
          · exfalso
            have haa : a = k' := by simpa using hq
            have hmm : k' ∈ (appendStrBucket rest k v).map Prod.fst :=
              List.mem_map.mpr ⟨(k', vs), he, rfl⟩
            rcases keys_appendStrBucket_sub rest k v k' hmm with hm | hm
            · exact ha' (haa ▸ hm)
            · exact (by simpa using hak : ¬ a = k) (haa.trans hm)
        rw [getStrBucket_cons_ne _ _ _ _ hk'a]
        exact h2
    · rw [if_pos (by simpa using hak)] at h ⊢
      rcases List.mem_cons.mp h with he | he
      · rw [Prod.mk.injEq] at he
        obtain ⟨h1, h2⟩ := he
        refine ⟨?_, ?_⟩
        · rw [h1, h2, getStrBucket_cons_self]
        · rw [h2]
          simp
      · have hk'mem : k' ∈ rest.map Prod.fst :=
          List.mem_map.mpr ⟨(k', vs), he, rfl⟩
        have hk'a : (a == k') = false := by
          cases hq : a == k'
          · rfl
          · exact absurd ((by simpa using hq : a = k') ▸ hk'mem) ha'
        have h2 := hinv k' vs (List.mem_cons_of_mem _ he)
        rw [getStrBucket_cons_ne _ _ _ _ hk'a] at h2
        rw [getStrBucket_cons_ne _ _ _ _ hk'a]
        exact h2

theorem getStrBucket_fold (g : String → Bool) (kf : String → String)
    (k : String) :
    ∀ (l : List String) (m : List (String × List String)),
      getStrBucket
        (l.foldl (fun m p =>
          if g p then appendStrBucket m (kf p) p else m) m) k =
        getStrBucket m k ++ l.filter (fun p => g p && kf p == k)
  | [], m => by simp
  | p :: l, m => by
    rw [List.foldl_cons, List.filter_cons]
    cases hg : g p
    · rw [if_neg (by simp), getStrBucket_fold g kf k l m]
      simp
    · rw [if_pos rfl]
      rw [getStrBucket_fold g kf k l (appendStrBucket m (kf p) p)]
      rw [getStrBucket_appendStrBucket m (kf p) p k]
      cases hkp : kf p == k <;> simp

theorem bucketWF_fold (g : String → Bool) (kf : String → String)
    (l : List String) (m : List (String × List String)) (hm : bucketWF m) :
    bucketWF (l.foldl
      (fun m p => if g p then appendStrBucket m (kf p) p else m) m) :=
  foldl_preserve _ bucketWF l m hm (fun acc x _ h => by
    cases hg : g x
    · rw [if_neg (by simp)]
      exact h
    · rw [if_pos rfl]
      exact bucketWF_appendStrBucket acc (kf x) x h)

theorem getStrBucket_mem (m : List (String × List String)) (k : String)
    (h : getStrBucket m k ≠ []) : (k, getStrBucket m k) ∈ m := by
  unfold getStrBucket at h ⊢
  cases hf : List.find? (fun p => p.1 == k) m with
  | none =>
    rw [hf] at h
    exact absurd rfl h
  | some pr =>
    have hm := List.mem_of_find?_eq_some hf
    have hp := List.find?_some hf
    have he : pr.1 = k := by simpa using hp
    show (k, pr.2) ∈ m
    rw [← he]
    simpa using hm

theorem getStrBucket_groupDeadByFolder (cache : FileCache)
    (deadFiles : List String) (k : String) :
    getStrBucket (groupDeadByFolder cache deadFiles) k =
      deadFiles.filter
        (fun p => (lookupCache cache p).isSome && parentDir p == k) := by
  unfold groupDeadByFolder
  simpa using getStrBucket_fold (fun p => (lookupCache cache p).isSome)
    parentDir k deadFiles []

theorem getStrBucket_groupTargetByFolder (targetFiles : List String)
    (k : String) :
    getStrBucket (groupTargetByFolder targetFiles) k =
      targetFiles.filter (fun p => !(isTestFile p) && parentDir p == k) := by
  unfold groupTargetByFolder
  simpa using getStrBucket_fold (fun p => !(isTestFile p))
    parentDir k targetFiles []

theorem bucketWF_groupDeadByFolder (cache : FileCache)
    (deadFiles : List String) :
    bucketWF (groupDeadByFolder cache deadFiles) := by
  unfold groupDeadByFolder
  exact bucketWF_fold _ _ _ _ bucketWF_nil

theorem detectDeadFoldersStep_eq (tb : List (String × List String))
    (acc : CheckResults × List String) (e : String × List String) :
    detectDeadFoldersStep tb acc e =
      if deadFolderCond tb e then
        ((removeIssues acc.1
            (acc.1.getAllIssues.filter (deadFileIssueInFolder e.1))).addIssue
            (deadFolderIssue e.1 (getStrBucket tb e.1).length),
          acc.2 ++ [e.1])
      else acc := by
  simp only [detectDeadFoldersStep, deadFolderCond]
  by_cases h1 : (getStrBucket tb e.1).length < 2
  · rw [if_pos h1, if_neg (by simp [h1])]
  · rw [if_neg h1]
    by_cases h2 : (getStrBucket tb e.1).length ≤ e.2.length
    · rw [if_pos h2, if_pos (by simp [h1, h2])]
    · rw [if_neg h2, if_neg (by simp [h1, h2])]

theorem detectDeadFolders_snd (tb : List (String × List String)) :
    ∀ (gl : List (String × List String)) (acc : CheckResults × List String),
      (gl.foldl (detectDeadFoldersStep tb) acc).2 =
        acc.2 ++ (gl.filter (deadFolderCond tb)).map Prod.fst
  | [], acc => by simp
  | e :: gl, acc => by
    rw [List.foldl_cons, List.filter_cons, detectDeadFolders_snd tb gl]
    rw [detectDeadFoldersStep_eq]
    cases hc : deadFolderCond tb e
    · rw [if_neg (by simp)]
      simp
    · rw [if_pos rfl]
      simp

theorem removeIssues_count :
    ∀ (tr : List DeadCodeIssue) (r : CheckResults) (i : DeadCodeIssue),
      (removeIssues r tr).errors.count i = r.errors.count i - tr.count i ∧
      (removeIssues r tr).warnings.count i =
        r.warnings.count i - tr.count i
  | [], r, i => by simp [removeIssues]
  | j :: tr, r, i => by
    have ih := removeIssues_count tr
      { errors := r.errors.erase j, warnings := r.warnings.erase j } i
    have hre : removeIssues r (j :: tr) =
        removeIssues { errors := r.errors.erase j, warnings := r.warnings.erase j } tr := rfl
    rw [hre, List.count_cons]
    constructor
    · rw [ih.1]
      show (r.errors.erase j).count i - tr.count i = _
      rw [List.count_erase]
      cases hji : j == i <;> simp <;> omega
    · rw [ih.2]
      show (r.warnings.erase j).count i - tr.count i = _
      rw [List.count_erase]
      cases hji : j == i <;> simp <;> omega

theorem removeIssues_mem (tr : List DeadCodeIssue) (r : CheckResults)
    (i : DeadCodeIssue) (h : i ∈ (removeIssues r tr).getAllIssues) :
    i ∈ r.getAllIssues := by
  unfold CheckResults.getAllIssues at h ⊢
  obtain ⟨h1, h2⟩ := removeIssues_count tr r i
  rcases List.mem_append.mp h with h' | h'
  · have hp := List.count_pos_iff.mpr h'
    refine List.mem_append.mpr (Or.inl (List.count_pos_iff.mp ?_))
    omega
  · have hp := List.count_pos_iff.mpr h'
    refine List.mem_append.mpr (Or.inr (List.count_pos_iff.mp ?_))
    omega

theorem removeIssues_all_gone (r : CheckResults)
    (q : DeadCodeIssue → Bool) (i : DeadCodeIssue) (hq : q i = true) :
    i ∉ (removeIssues r (r.getAllIssues.filter q)).getAllIssues := by
  intro hmem
  have hcf : (r.getAllIssues.filter q).count i = r.getAllIssues.count i :=
    List.count_filter hq
  have hca : r.getAllIssues.count i =
      r.errors.count i + r.warnings.count i := by
    unfold CheckResults.getAllIssues
    exact List.count_append i r.errors r.warnings
  obtain ⟨h1, h2⟩ := removeIssues_count (r.getAllIssues.filter q) r i
  unfold CheckResults.getAllIssues at hcf hca h1 h2 hmem
  rcases List.mem_append.mp hmem with h' | h'
  · have hp := List.count_pos_iff.mpr h'
    omega
  · have hp := List.count_pos_iff.mpr h'
    omega

theorem deadFileIssueInFolder_deadFolderIssue (f f' : String) (n : Nat) :
    deadFileIssueInFolder f' (deadFolderIssue f n) = false := by
  have h : ((deadFolderIssue f n).symbolName ==
      some ("__file__" : String)) = false := by
    show (some ("__folder__" : String) == some ("__file__" : String)) = false
    decide
  unfold deadFileIssueInFolder
  rw [h, Bool.and_false, Bool.false_and]

/-- C6: assuming the checker invariants that hold at the call site of
`_detect_dead_folders` (dead files are distinct cache keys drawn from the
non-test target files, and target files are distinct), a folder is
reported dead iff it holds at least two non-test target files and every
one of them is a dead file; and when it is reported, no issue matching
the folder's dead-file removal filter survives in the final results. -/
theorem c6_dead_folder_report (cache : FileCache)
    (targetFiles deadFiles : List String) (r : CheckResults) (f : String)
    (hnd : deadFiles.Nodup) (htnd : targetFiles.Nodup)
    (hcache : ∀ p ∈ deadFiles, (lookupCache cache p).isSome = true)
    (hsub : ∀ p ∈ deadFiles, p ∈ targetFiles ∧ isTestFile p = false) :
    (f ∈ (detectDeadFolders cache targetFiles deadFiles r).2 ↔
      2 ≤ (targetFiles.filter
          (fun p => !(isTestFile p) && parentDir p == f)).length ∧
        ∀ p ∈ targetFiles.filter
          (fun p => !(isTestFile p) && parentDir p == f), p ∈ deadFiles) ∧
    (f ∈ (detectDeadFolders cache targetFiles deadFiles r).2 →
      ∀ i ∈ (detectDeadFolders cache targetFiles deadFiles r).1.getAllIssues,
        deadFileIssueInFolder f i = false) := by
  have hTb := getStrBucket_groupTargetByFolder targetFiles f
  have hDb := getStrBucket_groupDeadByFolder cache deadFiles f
  have hwf := bucketWF_groupDeadByFolder cache deadFiles
  have hsnd : (detectDeadFolders cache targetFiles deadFiles r).2 =
      ((groupDeadByFolder cache deadFiles).filter
        (deadFolderCond (groupTargetByFolder targetFiles))).map Prod.fst := by
    unfold detectDeadFolders
    rw [detectDeadFolders_snd]
    simp
  have hmemiff : f ∈ (detectDeadFolders cache targetFiles deadFiles r).2 ↔
      ∃ vs, (f, vs) ∈ groupDeadByFolder cache deadFiles ∧
        deadFolderCond (groupTargetByFolder targetFiles) (f, vs) = true := by
    rw [hsnd]
    constructor
    · intro h
      obtain ⟨e, he, hef⟩ := List.mem_map.mp h
      obtain ⟨heg, hec⟩ := List.mem_filter.mp he
      obtain ⟨k0, vs⟩ := e
      refine ⟨vs, ?_, ?_⟩
      · rw [← (show k0 = f from hef)]
        exact heg
      · rw [← (show k0 = f from hef)]
        exact hec
    · rintro ⟨vs, hg, hc⟩
      exact List.mem_map.mpr ⟨(f, vs), List.mem_filter.mpr ⟨hg, hc⟩, rfl⟩
  have hDsubT : ∀ p ∈ deadFiles.filter
      (fun p => (lookupCache cache p).isSome && parentDir p == f),
      p ∈ targetFiles.filter
        (fun p => !(isTestFile p) && parentDir p == f) := by
    intro p hp
    obtain ⟨hpd, hpc⟩ := List.mem_filter.mp hp
    rw [Bool.and_eq_true] at hpc
    refine List.mem_filter.mpr ⟨(hsub p hpd).1, ?_⟩
    rw [Bool.and_eq_true]
    refine ⟨?_, hpc.2⟩
    rw [(hsub p hpd).2]
    rfl
  have hTnd := htnd.filter (fun p => !(isTestFile p) && parentDir p == f)
  have hDnd := hnd.filter
    (fun p => (lookupCache cache p).isSome && parentDir p == f)
  constructor
  · rw [hmemiff]
    constructor
    · rintro ⟨vs, hg, hc⟩
      have hvs := (hwf.2 f vs hg).1
      rw [hDb] at hvs
      unfold deadFolderCond at hc
      rw [Bool.and_eq_true, Bool.not_eq_true', decide_eq_false_iff_not,
        decide_eq_true_eq] at hc
      obtain ⟨h2T, hTD⟩ := hc
      rw [show ((f, vs).1) = f from rfl, hTb] at h2T hTD
      rw [show ((f, vs).2) = vs from rfl, hvs] at hTD
      have hsubF : (deadFiles.filter
          (fun p => (lookupCache cache p).isSome &&
            parentDir p == f)).toFinset ⊆
          (targetFiles.filter
            (fun p => !(isTestFile p) && parentDir p == f)).toFinset :=
        fun p hp => List.mem_toFinset.mpr (hDsubT p (List.mem_toFinset.mp hp))
      have hcardT := List.toFinset_card_of_nodup hTnd
      have hcardD := List.toFinset_card_of_nodup hDnd
      have hfeq := Finset.eq_of_subset_of_card_le hsubF (by omega)
      refine ⟨by omega, ?_⟩
      intro p hpT
      have hpD := List.mem_toFinset.mp (hfeq ▸ List.mem_toFinset.mpr hpT)
      exact (List.mem_filter.mp hpD).1
    · rintro ⟨h2T, hall⟩
      have hTsubD : ∀ p ∈ targetFiles.filter
          (fun p => !(isTestFile p) && parentDir p == f),
          p ∈ deadFiles.filter
            (fun p => (lookupCache cache p).isSome && parentDir p == f) := by
        intro p hp
        obtain ⟨hpt, hpc⟩ := List.mem_filter.mp hp
        rw [Bool.and_eq_true] at hpc
        have hpd := hall p hp
        refine List.mem_filter.mpr ⟨hpd, ?_⟩
        rw [Bool.and_eq_true]
        exact ⟨hcache p hpd, hpc.2⟩
      obtain ⟨p0, hp0⟩ := List.length_pos_iff_exists_mem.mp
        (show 0 < (targetFiles.filter
          (fun p => !(isTestFile p) && parentDir p == f)).length by omega)
      have hDne : getStrBucket (groupDeadByFolder cache deadFiles) f ≠ [] := by
        rw [hDb]
        exact List.ne_nil_of_mem (hTsubD p0 hp0)
      have hsubF : (targetFiles.filter
          (fun p => !(isTestFile p) && parentDir p == f)).toFinset ⊆
          (deadFiles.filter
            (fun p => (lookupCache cache p).isSome &&
              parentDir p == f)).toFinset :=
        fun p hp => List.mem_toFinset.mpr (hTsubD p (List.mem_toFinset.mp hp))
      have hcardT := List.toFinset_card_of_nodup hTnd
      have hlen : (targetFiles.filter
          (fun p => !(isTestFile p) && parentDir p == f)).length ≤
          (deadFiles.filter
            (fun p => (lookupCache cache p).isSome &&
              parentDir p == f)).length := by
        have hle1 := Finset.card_le_card hsubF
        have hle2 := List.toFinset_card_le (deadFiles.filter
          (fun p => (lookupCache cache p).isSome && parentDir p == f))
        omega
      refine ⟨getStrBucket (groupDeadByFolder cache deadFiles) f,
        getStrBucket_mem _ f hDne, ?_⟩
      unfold deadFolderCond
      rw [Bool.and_eq_true, Bool.not_eq_true', decide_eq_false_iff_not,
        decide_eq_true_eq]
      rw [show (((f, getStrBucket (groupDeadByFolder cache deadFiles) f)).1)
        = f from rfl, hTb]
      rw [show (((f, getStrBucket (groupDeadByFolder cache deadFiles) f)).2)
        = getStrBucket (groupDeadByFolder cache deadFiles) f from rfl, hDb]
      exact ⟨by omega, hlen⟩
  · intro hmem
    rw [hmemiff] at hmem
    obtain ⟨vs, hg, hc⟩ := hmem
    unfold detectDeadFolders
    refine foldl_establish (detectDeadFoldersStep (groupTargetByFolder targetFiles))
      (fun (acc : CheckResults × List String) =>
        ∀ i ∈ acc.1.getAllIssues, deadFileIssueInFolder f i = false)
      _ (r, []) (f, vs) hg ?_ ?_
    · intro acc y hy hP
      rw [detectDeadFoldersStep_eq]
      cases hcy : deadFolderCond (groupTargetByFolder targetFiles) y
      · rw [if_neg (by simp)]
        exact hP
      · rw [if_pos rfl]
        intro i hi
        rw [addIssue_error _ _ rfl] at hi
        unfold CheckResults.getAllIssues at hi
        rcases List.mem_append.mp hi with h' | h'
        · rcases List.mem_append.mp h' with h'' | h''
          · exact hP i (removeIssues_mem _ _ i
              (List.mem_append.mpr (Or.inl h'')))
          · rw [List.mem_singleton.mp h'']
            exact deadFileIssueInFolder_deadFolderIssue y.1 f _
        · exact hP i (removeIssues_mem _ _ i
            (List.mem_append.mpr (Or.inr h')))
    · intro acc
      rw [detectDeadFoldersStep_eq, if_pos hc]
      intro i hi
      rw [addIssue_error _ _ rfl] at hi
      unfold CheckResults.getAllIssues at hi
      rcases List.mem_append.mp hi with h' | h'
      · rcases List.mem_append.mp h' with h'' | h''
        · cases hpi : deadFileIssueInFolder f i
          · rfl
          · exact absurd (List.mem_append.mpr (Or.inl h''))
              (removeIssues_all_gone acc.1 (deadFileIssueInFolder f) i hpi)
        · rw [List.mem_singleton.mp h'']
          exact deadFileIssueInFolder_deadFolderIssue _ f _
      · cases hpi : deadFileIssueInFolder f i
        · rfl
        · exact absurd (List.mem_append.mpr (Or.inr h'))
            (removeIssues_all_gone acc.1 (deadFileIssueInFolder f) i hpi)

/-- Witness for C6 at the concrete two-dead-file sibling cache. -/
theorem c6_dead_folder_report_witness :
    "src/dd" ∈ (detectDeadFolders c6Cache ["src/dd/a.ts", "src/dd/b.ts"]
      ["src/dd/a.ts", "src/dd/b.ts"] {}).2 :=
  ((c6_dead_folder_report c6Cache ["src/dd/a.ts", "src/dd/b.ts"]
    ["src/dd/a.ts", "src/dd/b.ts"] {} "src/dd"
    (by decide) (by decide) (by decide) (by decide)).1).mpr
    ⟨by decide, by decide⟩

end DeadCode
